import Mathlib

/-!
Verification development for the pg-idempotent repository.

The repository's Python sources under version control here consist of the
CLI driver (`cli.py`) and the file-system helpers
(`pg_idempotent/utils/file_utils.py`).  The transformation engine itself
(Statement Splitter, Classifier, Wrap Eligibility Policy, Idempotency
Rewriter, Orchestrator) is not present in the source tree, only its callers
are; those components are therefore modelled from the specification, and
every such definition carries a doc comment saying so.  The file-system
helpers are embedded directly from `file_utils.py`.

Text is modelled as `List Char`; machine strings are converted with
`String.toList` at the boundary.
-/

namespace PgIdempotent

abbrev Str := List Char

/-- Whitespace characters recognised by the splitter and keyword matcher. -/
def isSpace (c : Char) : Bool :=
  c == ' ' || c == '\t' || c == '\n' || c == '\r'

/-- Characters allowed inside a dollar-quote tag (letters, digits, underscore). -/
def isTagChar (c : Char) : Bool :=
  c.isAlpha || c.isDigit || c == '_'

/-- Characters that are inert for the splitter in normal mode: they neither
terminate a statement nor open a string, comment or dollar quote. -/
def inertChar (c : Char) : Bool :=
  !(c == ';' || c == '\'' || c == '"' || c == '-' || c == '/' || c == '$')

/-- Modelled from the spec: the Statement Splitter's scanning modes
(normal, single-quoted string, double-quoted identifier, line comment,
block comment, dollar-quoted body with a specific tag).  The `dash` and
`slash` modes remember a single pending `-` or `/` seen in normal mode;
`tagOpen` accumulates a candidate opening tag after a `$`; `dollarEnd`
accumulates a candidate closing tag inside a dollar-quoted body. -/
inductive Mode where
  | normal
  | dash
  | slash
  | lineC
  | blockC
  | blockStar
  | squote
  | dquote
  | tagOpen (acc : Str)
  | dollar (tag : Str)
  | dollarEnd (tag : Str) (acc : Str)
deriving DecidableEq

/-- Mode reached from normal mode (or a mode that falls back to normal
behaviour) on one character. -/
def normMode (c : Char) : Mode :=
  if c = '\'' then .squote
  else if c = '"' then .dquote
  else if c = '-' then .dash
  else if c = '/' then .slash
  else if c = '$' then .tagOpen []
  else .normal

/-- One transition of the splitter's mode automaton. -/
def stepMode : Mode → Char → Mode
  | .normal, c => normMode c
  | .dash, c => if c = '-' then .lineC else normMode c
  | .slash, c => if c = '*' then .blockC else normMode c
  | .lineC, c => if c = '\n' then .normal else .lineC
  | .blockC, c => if c = '*' then .blockStar else .blockC
  | .blockStar, c =>
      if c = '/' then .normal else if c = '*' then .blockStar else .blockC
  | .squote, c => if c = '\'' then .normal else .squote
  | .dquote, c => if c = '"' then .normal else .dquote
  | .tagOpen acc, c =>
      if c = '$' then .dollar acc
      else if isTagChar c then .tagOpen (acc ++ [c])
      else normMode c
  | .dollar tag, c => if c = '$' then .dollarEnd tag [] else .dollar tag
  | .dollarEnd tag acc, c =>
      if c = '$' then (if acc = tag then .normal else .dollarEnd tag [])
      else if isTagChar c then .dollarEnd tag (acc ++ [c])
      else .dollar tag

/-- Modelled from the spec: a semicolon terminates a statement only in
normal mode (including the modes that merely remember a pending `-`, `/`
or an incomplete `$tag` and otherwise behave as normal mode). -/
def emits (m : Mode) (c : Char) : Bool :=
  match m with
  | .normal => c == ';'
  | .dash => c == ';'
  | .slash => c == ';'
  | .tagOpen _ => c == ';'
  | _ => false

/-- Splitter state: current mode, the characters accumulated since the last
emitted statement, and the statements emitted so far. -/
structure ScanSt where
  mode : Mode
  buf : Str
  stmts : List Str
deriving DecidableEq

/-- One character step of the Statement Splitter. -/
def step (st : ScanSt) (c : Char) : ScanSt :=
  if emits st.mode c then ⟨.normal, [], st.stmts ++ [st.buf ++ [c]]⟩
  else ⟨stepMode st.mode c, st.buf ++ [c], st.stmts⟩

def initSt : ScanSt := ⟨.normal, [], []⟩

/-- Modelled from the spec: the Statement Splitter scans the script
character by character, tracking string literals, comments and
dollar-quoted bodies, and cuts a statement at each semicolon seen in
normal mode. -/
def scan (s : Str) : ScanSt := s.foldl step initSt

/-- Modelled from the spec: modes at end of input that constitute
malformed / unterminated quoting (unterminated string, identifier, block
comment or dollar-quoted body). -/
def Mode.isUnterm : Mode → Bool
  | .squote => true
  | .dquote => true
  | .blockC => true
  | .blockStar => true
  | .dollar _ => true
  | .dollarEnd _ _ => true
  | _ => false

/-- Result of splitting a script: the ordered statement spans, the
trailing non-statement text, and whether the input ended inside
unterminated quoting (fatal). -/
structure SplitResult where
  statements : List Str
  tail : Str
  unterminated : Bool
deriving DecidableEq

/-- Modelled from the spec: the Statement Splitter entry point. -/
def splitSql (s : Str) : SplitResult :=
  let st := scan s
  ⟨st.stmts, st.buf, st.mode.isUnterm⟩

/-- A text span is complete when scanning it from a fresh state emits
exactly that span as one statement and returns to the initial state. -/
def Complete (s : Str) : Prop := scan s = ⟨.normal, [], [s]⟩

theorem step_emit {m : Mode} {c : Char} (h : emits m c = true) (b : Str)
    (a : List Str) : step ⟨m, b, a⟩ c = ⟨.normal, [], a ++ [b ++ [c]]⟩ := by
  simp [step, h]

theorem step_keep {m : Mode} {c : Char} (h : emits m c = false) (b : Str)
    (a : List Str) : step ⟨m, b, a⟩ c = ⟨stepMode m c, b ++ [c], a⟩ := by
  simp [step, h]

theorem foldl_step_append (xs ys : Str) (st : ScanSt) :
    (xs ++ ys).foldl step st = ys.foldl step (xs.foldl step st) :=
  List.foldl_append ..

/-- Accumulated statements are write-only: folding with any initial
statement list just prepends it. -/
theorem foldl_step_acc (xs : Str) : ∀ (m : Mode) (b : Str) (a : List Str),
    xs.foldl step ⟨m, b, a⟩ =
      ⟨(xs.foldl step ⟨m, b, []⟩).mode, (xs.foldl step ⟨m, b, []⟩).buf,
        a ++ (xs.foldl step ⟨m, b, []⟩).stmts⟩ := by
  induction xs with
  | nil => intro m b a; simp
  | cons c xs ih =>
      intro m b a
      by_cases h : emits m c = true
      · rw [List.foldl_cons, List.foldl_cons, step_emit h, step_emit h]
        simp only [List.nil_append]
        rw [ih .normal [] (a ++ [b ++ [c]]), ih .normal [] [b ++ [c]]]
        simp
      · rw [List.foldl_cons, List.foldl_cons,
          step_keep (Bool.not_eq_true _ ▸ h), step_keep (Bool.not_eq_true _ ▸ h)]
        exact ih _ _ a

/-- Buffer framing: folding with a non-empty initial buffer prepends that
buffer to the first emitted statement (or to the final buffer if nothing
is emitted). -/
theorem foldl_step_buf (xs : Str) : ∀ (m : Mode) (b : Str),
    ((xs.foldl step ⟨m, [], []⟩).stmts = [] ∧
      xs.foldl step ⟨m, b, []⟩ =
        ⟨(xs.foldl step ⟨m, [], []⟩).mode,
          b ++ (xs.foldl step ⟨m, [], []⟩).buf, []⟩) ∨
    (∃ s1 ss, (xs.foldl step ⟨m, [], []⟩).stmts = s1 :: ss ∧
      xs.foldl step ⟨m, b, []⟩ =
        ⟨(xs.foldl step ⟨m, [], []⟩).mode,
          (xs.foldl step ⟨m, [], []⟩).buf, (b ++ s1) :: ss⟩) := by
  induction xs with
  | nil => intro m b; left; simp
  | cons c xs ih =>
      intro m b
      by_cases h : emits m c = true
      · right
        rw [List.foldl_cons, List.foldl_cons, step_emit h, step_emit h]
        simp only [List.nil_append]
        rw [foldl_step_acc xs .normal [] [b ++ [c]],
          foldl_step_acc xs .normal [] [[c]]]
        exact ⟨[c], (xs.foldl step ⟨.normal, [], []⟩).stmts, by simp⟩
      · rw [List.foldl_cons, List.foldl_cons,
          step_keep (Bool.not_eq_true _ ▸ h), step_keep (Bool.not_eq_true _ ▸ h)]
        simp only [List.nil_append]
        rcases ih (stepMode m c) (b ++ [c]) with ⟨h1, h2⟩ | ⟨s1, ss, h1, h2⟩
        · rcases ih (stepMode m c) [c] with ⟨g1, g2⟩ | ⟨s1, ss, g1, g2⟩
          · left
            constructor
            · rw [g2]
            · rw [h2, g2]; simp
          · exact absurd g1 (by rw [h1]; simp)
        · rcases ih (stepMode m c) [c] with ⟨g1, g2⟩ | ⟨t1, ts, g1, g2⟩
          · exact absurd h1 (by rw [g1]; simp)
          · right
            refine ⟨[c] ++ s1, ss, ?_, ?_⟩
            · rw [g2]; rw [h1] at g1; simp at g1
              simp [g1.1, g1.2]
            · rw [h2, g2]; rw [h1] at g1; simp at g1
              simp [g1.1, g1.2]

/-- Splitter invariant: every emitted statement is complete, the current
buffer rescans to the current mode without emitting, and the emitted
statements plus the buffer reconstruct the input. -/
theorem scan_inv (s : Str) :
    (∀ t ∈ (scan s).stmts, Complete t) ∧
    scan (scan s).buf = ⟨(scan s).mode, (scan s).buf, []⟩ ∧
    (scan s).stmts.flatten ++ (scan s).buf = s := by
  suffices h : ∀ (xs : Str) (st : ScanSt),
      (∀ t ∈ st.stmts, Complete t) →
      scan st.buf = ⟨st.mode, st.buf, []⟩ →
      (∀ t ∈ (xs.foldl step st).stmts, Complete t) ∧
      scan (xs.foldl step st).buf =
        ⟨(xs.foldl step st).mode, (xs.foldl step st).buf, []⟩ ∧
      (xs.foldl step st).stmts.flatten ++ (xs.foldl step st).buf =
        st.stmts.flatten ++ st.buf ++ xs by
    have h0 := h s initSt (by simp [initSt]) (by rfl)
    refine ⟨h0.1, h0.2.1, ?_⟩
    have h3 := h0.2.2
    simpa [scan, initSt] using h3
  intro xs
  induction xs with
  | nil => intro st h1 h2; exact ⟨h1, h2, by simp⟩
  | cons c xs ih =>
      intro st h1 h2
      rw [List.foldl_cons]
      by_cases h : emits st.mode c = true
      · have hstep : step st c = ⟨.normal, [], st.stmts ++ [st.buf ++ [c]]⟩ := by
          cases st; exact step_emit h _ _
        rw [hstep]
        have hcomp : Complete (st.buf ++ [c]) := by
          unfold Complete
          show (st.buf ++ [c]).foldl step initSt = _
          rw [foldl_step_append]
          show step (scan st.buf) c = _
          rw [h2]
          exact step_emit h _ _
        have hrec := ih ⟨.normal, [], st.stmts ++ [st.buf ++ [c]]⟩
          (by intro t ht
              simp at ht
              rcases ht with ht | ht
              · exact h1 t ht
              · rw [ht]; exact hcomp)
          (by rfl)
        refine ⟨hrec.1, hrec.2.1, ?_⟩
        rw [hrec.2.2]
        simp
      · have hstep : step st c = ⟨stepMode st.mode c, st.buf ++ [c], st.stmts⟩ := by
          cases st; exact step_keep (Bool.not_eq_true _ ▸ h) _ _
        rw [hstep]
        have hbuf : scan (st.buf ++ [c]) =
            ⟨stepMode st.mode c, st.buf ++ [c], []⟩ := by
          unfold scan
          rw [foldl_step_append]
          show step (scan st.buf) c = _
          rw [h2]
          exact step_keep (Bool.not_eq_true _ ▸ h) _ _
        have hrec := ih ⟨stepMode st.mode c, st.buf ++ [c], st.stmts⟩ h1 hbuf
        refine ⟨hrec.1, hrec.2.1, ?_⟩
        rw [hrec.2.2]
        simp

/-- Scanning a concatenation of complete statements followed by a span that
rescans to itself reproduces exactly those statements and that tail. -/
theorem scan_flatten (ts : List Str) (tl : Str) (m : Mode)
    (hts : ∀ t ∈ ts, Complete t) (htl : scan tl = ⟨m, tl, []⟩) :
    scan (ts.flatten ++ tl) = ⟨m, tl, ts⟩ := by
  induction ts with
  | nil => simpa using htl
  | cons t ts ih =>
      have hc : Complete t := hts t (by simp)
      have hrest := ih (fun u hu => hts u (by simp [hu]))
      have key : (t :: ts).flatten ++ tl = t ++ (ts.flatten ++ tl) := by simp
      rw [key]
      show ((t ++ (ts.flatten ++ tl)).foldl step initSt) = _
      rw [foldl_step_append]
      have hct : t.foldl step initSt = ⟨.normal, [], [t]⟩ := hc
      rw [hct]
      rw [foldl_step_acc (ts.flatten ++ tl) .normal [] [t]]
      have hrest2 : (ts.flatten ++ tl).foldl step ⟨.normal, [], []⟩ = ⟨m, tl, ts⟩ := hrest
      rw [hrest2]
      simp

/-- Scanning inert characters in normal mode keeps normal mode and emits
nothing. -/
theorem scan_inert (xs : Str) : ∀ (b : Str) (a : List Str),
    (∀ x ∈ xs, inertChar x = true) →
    xs.foldl step ⟨.normal, b, a⟩ = ⟨.normal, b ++ xs, a⟩ := by
  induction xs with
  | nil => intro b a _; simp
  | cons c xs ih =>
      intro b a hall
      have hc : inertChar c = true := hall c (by simp)
      have hc' : ¬c = ';' ∧ ¬c = '\'' ∧ ¬c = '"' ∧ ¬c = '-' ∧ ¬c = '/' ∧ ¬c = '$' := by
        simpa [inertChar, and_assoc] using hc
      have hemit : emits Mode.normal c = false := by
        simp [emits, hc'.1]
      have hmode : stepMode Mode.normal c = Mode.normal := by
        simp [stepMode, normMode, hc'.2.1, hc'.2.2.1, hc'.2.2.2.1,
          hc'.2.2.2.2.1, hc'.2.2.2.2.2]
      rw [List.foldl_cons, step_keep hemit, hmode]
      rw [ih (b ++ [c]) a (fun x hx => hall x (by simp [hx]))]
      simp

/-- Scanning characters none of which is a dollar sign inside a
dollar-quoted body stays in that body and emits nothing. -/
theorem scan_dollar_no_dollar (xs : Str) : ∀ (tag : Str) (b : Str) (a : List Str),
    (∀ x ∈ xs, x ≠ '$') →
    xs.foldl step ⟨.dollar tag, b, a⟩ = ⟨.dollar tag, b ++ xs, a⟩ := by
  induction xs with
  | nil => intro tag b a _; simp
  | cons c xs ih =>
      intro tag b a hall
      have hc : c ≠ '$' := hall c (by simp)
      have hemit : emits (Mode.dollar tag) c = false := by simp [emits]
      have hmode : stepMode (Mode.dollar tag) c = Mode.dollar tag := by
        simp [stepMode, hc]
      rw [List.foldl_cons, step_keep hemit, hmode]
      rw [ih tag (b ++ [c]) a (fun x hx => hall x (by simp [hx]))]
      simp

/-- Scanning tag characters while reading an opening dollar-quote tag
accumulates them. -/
theorem scan_tagOpen (xs : Str) : ∀ (acc : Str) (b : Str) (a : List Str),
    (∀ x ∈ xs, isTagChar x = true ∧ x ≠ '$') →
    xs.foldl step ⟨.tagOpen acc, b, a⟩ = ⟨.tagOpen (acc ++ xs), b ++ xs, a⟩ := by
  induction xs with
  | nil => intro acc b a _; simp
  | cons c xs ih =>
      intro acc b a hall
      have hc := hall c (by simp)
      have hsemi : (c == ';') = false := by
        have : isTagChar ';' = false := by decide
        by_contra hcon
        simp at hcon
        rw [hcon] at hc
        rw [this] at hc
        exact absurd hc.1 (by simp)
      have hemit : emits (Mode.tagOpen acc) c = false := by simp [emits, hsemi]
      have hmode : stepMode (Mode.tagOpen acc) c = Mode.tagOpen (acc ++ [c]) := by
        simp [stepMode, hc.2, hc.1]
      rw [List.foldl_cons, step_keep hemit, hmode]
      rw [ih (acc ++ [c]) (b ++ [c]) a (fun x hx => hall x (by simp [hx]))]
      simp

/-- Scanning tag characters while reading a closing dollar-quote tag
accumulates them. -/
theorem scan_dollarEnd (xs : Str) : ∀ (tag acc : Str) (b : Str) (a : List Str),
    (∀ x ∈ xs, isTagChar x = true ∧ x ≠ '$') →
    xs.foldl step ⟨.dollarEnd tag acc, b, a⟩ =
      ⟨.dollarEnd tag (acc ++ xs), b ++ xs, a⟩ := by
  induction xs with
  | nil => intro tag acc b a _; simp
  | cons c xs ih =>
      intro tag acc b a hall
      have hc := hall c (by simp)
      have hemit : emits (Mode.dollarEnd tag acc) c = false := by simp [emits]
      have hmode : stepMode (Mode.dollarEnd tag acc) c =
          Mode.dollarEnd tag (acc ++ [c]) := by
        simp [stepMode, hc.2, hc.1]
      rw [List.foldl_cons, step_keep hemit, hmode]
      rw [ih tag (acc ++ [c]) (b ++ [c]) a (fun x hx => hall x (by simp [hx]))]
      simp

/-- Invariant for scanning inside a dollar-quoted body: either we are in
the body or we are matching a candidate closing tag of bounded length. -/
def InsideD (tag : Str) (m : Mode) (n : Nat) : Prop :=
  m = .dollar tag ∨ ∃ acc, m = .dollarEnd tag acc ∧ acc.length ≤ n

/-- Scanning fewer characters than the tag length from inside a
dollar-quoted body can never escape the body, and emits nothing. -/
theorem scan_insideD (xs : Str) : ∀ (tag : Str) (m : Mode) (n : Nat)
    (b : Str) (a : List Str),
    InsideD tag m n → n + xs.length < tag.length →
    ∃ m2, xs.foldl step ⟨m, b, a⟩ = ⟨m2, b ++ xs, a⟩ ∧
      InsideD tag m2 (n + xs.length) := by
  induction xs with
  | nil => intro tag m n b a hm _; exact ⟨m, by simp, hm⟩
  | cons c xs ih =>
      intro tag m n b a hm hlen
      have hemit : emits m c = false := by
        rcases hm with hm | ⟨acc, hm, _⟩ <;> rw [hm] <;> simp [emits]
      have step1 : InsideD tag (stepMode m c) (n + 1) := by
        rcases hm with hm | ⟨acc, hm, hacc⟩
        · rw [hm]
          by_cases hd : c = '$'
          · right; exact ⟨[], by simp [stepMode, hd], by simp⟩
          · left; simp [stepMode, hd]
        · rw [hm]
          by_cases hd : c = '$'
          · have hne : acc ≠ tag := by
              intro heq
              rw [heq] at hacc
              omega
            right
            exact ⟨[], by simp [stepMode, hd, hne], by simp⟩
          · by_cases ht : isTagChar c = true
            · right
              refine ⟨acc ++ [c], by simp [stepMode, hd, ht], by simp; omega⟩
            · left
              simp at ht
              simp [stepMode, hd, ht]
      rw [List.foldl_cons, step_keep hemit]
      have hlen2 : n + (xs.length + 1) < tag.length := by simpa using hlen
      have hrec := ih tag (stepMode m c) (n + 1) (b ++ [c]) a step1 (by omega)
      rcases hrec with ⟨m2, heq, hins⟩
      refine ⟨m2, ?_, ?_⟩
      · rw [heq]; simp
      · have hx : n + (c :: xs).length = n + 1 + xs.length := by simp; omega
        rw [hx]
        exact hins

/-- Modelled from the spec: the procedural wrapper for statement kinds
with no native guard.  The original statement is preserved byte for byte
inside a `DO` block whose dollar-quote tag is longer than the whole block
body, hence cannot occur inside it; the handler catches only the
duplicate-object error class. -/
def wrapPre : Str := ("DO ").toList

def wrapBody1 : Str := ("\nBEGIN\n").toList

def wrapBody2 : Str :=
  ("\nEXCEPTION WHEN duplicate_object THEN NULL;\nEND;\n").toList

/-- Inner body of the wrapper for a statement `s`. -/
def wrapInner (s : Str) : Str := wrapBody1 ++ s ++ wrapBody2

/-- Fresh dollar-quote tag: strictly longer than the inner body, so it
cannot occur inside it. -/
def wrapTag (s : Str) : Str := List.replicate ((wrapInner s).length + 1) 'q'

/-- Modelled from the spec: wrap a statement in an exception-tolerant
anonymous block. -/
def wrapStmt (s : Str) : Str :=
  wrapPre ++ (['$'] ++ (wrapTag s ++ (['$'] ++ (wrapInner s ++
    (['$'] ++ (wrapTag s ++ (['$'] ++ [';'])))))))

theorem wrapTag_all (s : Str) :
    ∀ x ∈ wrapTag s, isTagChar x = true ∧ x ≠ '$' := by
  intro x hx
  have : x = 'q' := List.eq_of_mem_replicate hx
  rw [this]
  exact ⟨by decide, by decide⟩

/-- The wrapper always scans as one complete statement, whatever the
wrapped text contains. -/
theorem wrapStmt_complete (s : Str) : Complete (wrapStmt s) := by
  unfold Complete
  show (wrapStmt s).foldl step initSt = _
  unfold wrapStmt
  rw [foldl_step_append, foldl_step_append, foldl_step_append,
    foldl_step_append, foldl_step_append, foldl_step_append,
    foldl_step_append, foldl_step_append]
  have h1 : wrapPre.foldl step initSt = ⟨.normal, wrapPre, []⟩ := by
    have := scan_inert wrapPre [] [] (by decide)
    simpa [initSt] using this
  rw [h1]
  have h2 : (['$'] : Str).foldl step ⟨.normal, wrapPre, []⟩ =
      ⟨.tagOpen [], wrapPre ++ ['$'], []⟩ := by
    rw [List.foldl_cons, step_keep (by decide)]
    simp [stepMode, normMode]
  rw [h2]
  have h3 : (wrapTag s).foldl step ⟨.tagOpen [], wrapPre ++ ['$'], []⟩ =
      ⟨.tagOpen (wrapTag s), (wrapPre ++ ['$']) ++ wrapTag s, []⟩ := by
    have := scan_tagOpen (wrapTag s) [] (wrapPre ++ ['$']) [] (wrapTag_all s)
    simpa using this
  rw [h3]
  have h4 : (['$'] : Str).foldl step
      ⟨.tagOpen (wrapTag s), (wrapPre ++ ['$']) ++ wrapTag s, []⟩ =
      ⟨.dollar (wrapTag s), ((wrapPre ++ ['$']) ++ wrapTag s) ++ ['$'], []⟩ := by
    rw [List.foldl_cons, step_keep (by simp [emits])]
    simp [stepMode]
  rw [h4]
  have h5 := scan_insideD (wrapInner s) (wrapTag s) (.dollar (wrapTag s)) 0
    (((wrapPre ++ ['$']) ++ wrapTag s) ++ ['$']) []
    (Or.inl rfl) (by simp [wrapTag])
  rcases h5 with ⟨m2, heq, hins⟩
  rw [heq]
  have h6 : (['$'] : Str).foldl step
      ⟨m2, (((wrapPre ++ ['$']) ++ wrapTag s) ++ ['$']) ++ wrapInner s, []⟩ =
      ⟨.dollarEnd (wrapTag s) [],
        ((((wrapPre ++ ['$']) ++ wrapTag s) ++ ['$']) ++ wrapInner s) ++ ['$'], []⟩ := by
    rcases hins with hm | ⟨acc, hm, hacc⟩
    · rw [hm, List.foldl_cons, step_keep (by simp [emits])]
      simp [stepMode]
    · have hne : acc ≠ wrapTag s := by
        intro hcon
        rw [hcon] at hacc
        simp [wrapTag] at hacc
      rw [hm, List.foldl_cons, step_keep (by simp [emits])]
      simp [stepMode, hne]
  rw [h6]
  have h7 := scan_dollarEnd (wrapTag s) (wrapTag s) []
    (((((wrapPre ++ ['$']) ++ wrapTag s) ++ ['$']) ++ wrapInner s) ++ ['$']) []
    (wrapTag_all s)
  rw [h7]
  have h8 : (['$'] : Str).foldl step
      ⟨.dollarEnd (wrapTag s) ([] ++ wrapTag s),
        (((((wrapPre ++ ['$']) ++ wrapTag s) ++ ['$']) ++ wrapInner s) ++ ['$'])
          ++ wrapTag s, []⟩ =
      ⟨.normal,
        ((((((wrapPre ++ ['$']) ++ wrapTag s) ++ ['$']) ++ wrapInner s) ++ ['$'])
          ++ wrapTag s) ++ ['$'], []⟩ := by
    rw [List.foldl_cons, step_keep (by simp [emits])]
    simp [stepMode]
  rw [h8]
  rw [show ([';'] : Str).foldl step
      ⟨.normal,
        ((((((wrapPre ++ ['$']) ++ wrapTag s) ++ ['$']) ++ wrapInner s) ++ ['$'])
          ++ wrapTag s) ++ ['$'], []⟩ =
      ⟨.normal, [],
        [(((((((wrapPre ++ ['$']) ++ wrapTag s) ++ ['$']) ++ wrapInner s) ++ ['$'])
          ++ wrapTag s) ++ ['$']) ++ [';']]⟩ from by
    rw [List.foldl_cons, step_emit (by decide)]
    simp]
  simp

/-- Inserting inert text (letters and spaces of a guard clause) right after
an inert prefix of a complete statement keeps the statement complete. -/
theorem complete_insert (pre mid rest : Str)
    (hpre : ∀ x ∈ pre, inertChar x = true)
    (hmid : ∀ x ∈ mid, inertChar x = true)
    (hc : Complete (pre ++ rest)) : Complete (pre ++ (mid ++ rest)) := by
  have hscanpre : scan pre = ⟨.normal, pre, []⟩ := by
    have := scan_inert pre [] [] hpre
    simpa [scan, initSt] using this
  have hstep1 : rest.foldl step ⟨.normal, pre, []⟩ = ⟨.normal, [], [pre ++ rest]⟩ := by
    have h0 : scan (pre ++ rest) = ⟨.normal, [], [pre ++ rest]⟩ := hc
    unfold scan at h0
    rw [foldl_step_append] at h0
    have hp : pre.foldl step initSt = ⟨.normal, pre, []⟩ := hscanpre
    rw [hp] at h0
    exact h0
  have hF : rest.foldl step ⟨.normal, [], []⟩ = ⟨.normal, [], [rest]⟩ := by
    rcases foldl_step_buf rest .normal pre with ⟨h1, h2⟩ | ⟨s1, ss, h1, h2⟩
    · rw [hstep1] at h2
      have hs := congrArg ScanSt.stmts h2
      simp at hs
    · rw [hstep1] at h2
      cases hx : rest.foldl step ⟨.normal, [], []⟩ with
      | mk mo bu stl => simp_all
  have hscanpm : scan (pre ++ mid) = ⟨.normal, pre ++ mid, []⟩ := by
    have := scan_inert (pre ++ mid) [] []
      (by intro x hx
          rcases List.mem_append.mp hx with h | h
          · exact hpre x h
          · exact hmid x h)
    simpa [scan, initSt] using this
  unfold Complete
  have hgoal : scan ((pre ++ mid) ++ rest) = ⟨.normal, [], [(pre ++ mid) ++ rest]⟩ := by
    unfold scan
    rw [foldl_step_append]
    have hpm : (pre ++ mid).foldl step initSt = ⟨.normal, pre ++ mid, []⟩ := hscanpm
    rw [hpm]
    rcases foldl_step_buf rest .normal (pre ++ mid) with ⟨h1, h2⟩ | ⟨s1, ss, h1, h2⟩
    · rw [hF] at h1
      simp at h1
    · rw [hF] at h1 h2
      simp at h1
      rw [h2, h1.1, h1.2]
  rw [show pre ++ (mid ++ rest) = (pre ++ mid) ++ rest by simp]
  exact hgoal

/-- Modelled from the spec: consume leading whitespace, returning the
consumed span and the remainder. -/
def eatSpaces : Str → Str × Str
  | [] => ([], [])
  | c :: rest =>
    if isSpace c then
      let p := eatSpaces rest
      (c :: p.1, p.2)
    else ([], c :: rest)

/-- Modelled from the spec: match one keyword case-insensitively at the
head of the text, returning the matched span and the remainder. -/
def eatWord : Str → Str → Option (Str × Str)
  | [], s => some ([], s)
  | _ :: _, [] => none
  | k :: ks, c :: cs =>
    if c.toUpper = k.toUpper then
      match eatWord ks cs with
      | some (p, r) => some (c :: p, r)
      | none => none
    else none

/-- A keyword match only counts when followed by whitespace or end of
text. -/
def wordBoundary (s : Str) : Bool :=
  match s with
  | [] => true
  | c :: _ => isSpace c

/-- Modelled from the spec: skip whitespace then match one keyword with a
word boundary; returns the consumed span (spaces plus word) and the rest. -/
def eatKw (kw : Str) (s : Str) : Option (Str × Str) :=
  match eatWord kw (eatSpaces s).2 with
  | some (p, r) => if wordBoundary r then some ((eatSpaces s).1 ++ p, r) else none
  | none => none

/-- Modelled from the spec: match a sequence of keywords. -/
def eatKws : List Str → Str → Option (Str × Str)
  | [], s => some ([], s)
  | kw :: kws, s =>
    match eatKw kw s with
    | some (p, r) =>
      match eatKws kws r with
      | some (q, r2) => some (p ++ q, r2)
      | none => none
    | none => none

/-- Characters that may appear in an object name token. -/
def isNameChar (c : Char) : Bool := isTagChar c || c == '.'

/-- Modelled from the spec: consume whitespace plus one name-like token
(used for `DROP <kind>`). -/
def eatToken (s : Str) : Str × Str :=
  let sp := eatSpaces s
  (sp.1 ++ sp.2.takeWhile isNameChar, sp.2.dropWhile isNameChar)

/-- A sane keyword: non-empty, made of characters whose upper case is
inert for the splitter and not whitespace. -/
def goodKw (kw : Str) : Bool :=
  !kw.isEmpty && kw.all (fun k => inertChar k.toUpper && !(isSpace k.toUpper))

/-- A guard word inside the recognized-keyword region ends at any
character that cannot continue an identifier (whitespace, a parenthesis,
end of text, ...): a weaker boundary than the keyword matcher's
whitespace-only boundary. -/
def looseBoundary (s : Str) : Bool :=
  match s with
  | [] => true
  | c :: _ => !isNameChar c

/-- Modelled from the spec: match one guard word case-insensitively at a
loose boundary, used to detect an existing guard in the recognized
keyword region. -/
def eatKwL (kw : Str) (s : Str) : Option (Str × Str) :=
  match eatWord kw (eatSpaces s).2 with
  | some (p, r) =>
      if looseBoundary r then some ((eatSpaces s).1 ++ p, r) else none
  | none => none

/-- Modelled from the spec: match a sequence of guard words. -/
def eatKwsL : List Str → Str → Option (Str × Str)
  | [], s => some ([], s)
  | kw :: kws, s =>
    match eatKwL kw s with
    | some (p, r) =>
      match eatKwsL kws r with
      | some (q, r2) => some (p ++ q, r2)
      | none => none
    | none => none

theorem isSpace_fix (c : Char) (h : isSpace c = true) : c.toUpper = c := by
  simp [isSpace] at h
  rcases h with ((h | h) | h) | h <;> subst h <;> decide

theorem notInert_fix (c : Char) (h : inertChar c = false) : c.toUpper = c := by
  have h6 : c = ';' ∨ c = '\'' ∨ c = '"' ∨ c = '-' ∨ c = '/' ∨ c = '$' := by
    by_contra hall
    push_neg at hall
    obtain ⟨h1, h2, h3, h4, h5, hx⟩ := hall
    simp [inertChar, h1, h2, h3, h4, h5, hx] at h
  rcases h6 with h | h | h | h | h | h <;> subst h <;> decide

theorem matched_not_space {c u : Char} (h : c.toUpper = u.toUpper)
    (hu : isSpace u.toUpper = false) : isSpace c = false := by
  by_contra hc
  simp only [Bool.not_eq_false] at hc
  have hfix := isSpace_fix c hc
  rw [hfix] at h
  rw [← h] at hu
  rw [hc] at hu
  exact absurd hu (by simp)

theorem matched_inert {c u : Char} (h : c.toUpper = u.toUpper)
    (hu : inertChar u.toUpper = true) : inertChar c = true := by
  by_contra hc
  simp only [Bool.not_eq_true] at hc
  have hfix := notInert_fix c hc
  rw [hfix] at h
  rw [← h] at hu
  rw [hc] at hu
  exact absurd hu (by simp)

theorem isNameChar_inert (c : Char) (h : isNameChar c = true) :
    inertChar c = true := by
  by_contra hc
  simp only [Bool.not_eq_true] at hc
  have hfix := notInert_fix c hc
  have h6 : c = ';' ∨ c = '\'' ∨ c = '"' ∨ c = '-' ∨ c = '/' ∨ c = '$' := by
    by_contra hall
    push_neg at hall
    obtain ⟨h1, h2, h3, h4, h5, hx⟩ := hall
    simp [inertChar, h1, h2, h3, h4, h5, hx] at hc
  rcases h6 with h2 | h2 | h2 | h2 | h2 | h2 <;> subst h2 <;>
    simp [isNameChar, isTagChar] at h

theorem isSpace_inert (c : Char) (h : isSpace c = true) : inertChar c = true := by
  simp [isSpace] at h
  rcases h with ((h | h) | h) | h <;> subst h <;> decide

theorem isNameChar_space (c : Char) (h : isSpace c = true) :
    isNameChar c = false := by
  simp [isSpace] at h
  rcases h with ((h | h) | h) | h <;> subst h <;> decide

theorem nameChar_not_space (c : Char) (h : isNameChar c = true) :
    isSpace c = false := by
  by_contra hc
  simp only [Bool.not_eq_false] at hc
  rw [isNameChar_space c hc] at h
  exact absurd h (by simp)

theorem loose_of_word {r : Str} (h : wordBoundary r = true) :
    looseBoundary r = true := by
  cases r with
  | nil => rfl
  | cons c cs =>
      have hc : isSpace c = true := by simpa [wordBoundary] using h
      simp [looseBoundary, isNameChar_space c hc]

/-- Every character kept by `takeWhile` satisfies the predicate, and the
head of the `dropWhile` remainder refutes it. -/
theorem takeWhile_props (p : Char → Bool) (l : Str) :
    (∀ x ∈ l.takeWhile p, p x = true) ∧
    (l.dropWhile p = [] ∨
      ∃ c cs, l.dropWhile p = c :: cs ∧ p c = false) := by
  induction l with
  | nil => simp
  | cons c cs ih =>
      by_cases h : p c = true
      · refine ⟨?_, ?_⟩
        · intro x hx
          rw [List.takeWhile_cons, if_pos h] at hx
          rcases List.mem_cons.mp hx with hx | hx
          · rw [hx]; exact h
          · exact ih.1 x hx
        · rw [List.dropWhile_cons, if_pos h]
          exact ih.2
      · have hb : p c = false := by simpa using h
        refine ⟨?_, Or.inr ⟨c, cs, ?_, hb⟩⟩
        · intro x hx
          rw [List.takeWhile_cons, if_neg (by simp [hb])] at hx
          simp at hx
        · rw [List.dropWhile_cons, if_neg (by simp [hb])]

/-- `takeWhile` and `dropWhile` over a satisfied block followed by a
refuting remainder. -/
theorem takeWhile_append_stop (p : Char → Bool) (name Y : Str)
    (hall : ∀ x ∈ name, p x = true)
    (hY : Y = [] ∨ ∃ c cs, Y = c :: cs ∧ p c = false) :
    (name ++ Y).takeWhile p = name ∧ (name ++ Y).dropWhile p = Y := by
  induction name with
  | nil =>
      simp only [List.nil_append]
      rcases hY with hY | ⟨c, cs, hY, hc⟩
      · subst hY; simp
      · subst hY
        constructor
        · rw [List.takeWhile_cons, if_neg (by simp [hc])]
        · rw [List.dropWhile_cons, if_neg (by simp [hc])]
  | cons n ns ih =>
      have hn : p n = true := hall n (by simp)
      have ih2 := ih (fun x hx => hall x (by simp [hx]))
      constructor
      · rw [List.cons_append, List.takeWhile_cons, if_pos hn, ih2.1]
      · rw [List.cons_append, List.dropWhile_cons, if_pos hn, ih2.2]

/-- Decomposition of `eatSpaces`. -/
theorem eatSpaces_decomp (s : Str) :
    s = (eatSpaces s).1 ++ (eatSpaces s).2 ∧
    (∀ x ∈ (eatSpaces s).1, isSpace x = true) ∧
    ((eatSpaces s).2 = [] ∨
      ∃ c cs, (eatSpaces s).2 = c :: cs ∧ isSpace c = false) := by
  induction s with
  | nil =>
      exact ⟨by simp [eatSpaces], by simp [eatSpaces], Or.inl (by simp [eatSpaces])⟩
  | cons c rest ih =>
      by_cases h : isSpace c = true
      · have he : eatSpaces (c :: rest) =
            (c :: (eatSpaces rest).1, (eatSpaces rest).2) := by
          simp [eatSpaces, h]
        rw [he]
        refine ⟨?_, ?_, ih.2.2⟩
        · simpa using congrArg (List.cons c) ih.1
        · intro x hx
          simp at hx
          rcases hx with hx | hx
          · rw [hx]; exact h
          · exact ih.2.1 x hx
      · have h2 : isSpace c = false := by simpa using h
        have he : eatSpaces (c :: rest) = ([], c :: rest) := by
          simp [eatSpaces, h2]
        rw [he]
        exact ⟨by simp, by simp, Or.inr ⟨c, rest, rfl, h2⟩⟩

/-- Computation of `eatSpaces` on a known decomposition. -/
theorem eatSpaces_of (sp t : Str) (hsp : ∀ x ∈ sp, isSpace x = true)
    (ht : t = [] ∨ ∃ c cs, t = c :: cs ∧ isSpace c = false) :
    eatSpaces (sp ++ t) = (sp, t) := by
  induction sp with
  | nil =>
      rcases ht with ht | ⟨c, cs, ht, hc⟩
      · subst ht; simp [eatSpaces]
      · subst ht; simp [eatSpaces, hc]
  | cons c sp ih =>
      have hc : isSpace c = true := hsp c (by simp)
      have := ih (fun x hx => hsp x (by simp [hx]))
      simp [eatSpaces, hc, this]

/-- Decomposition of a successful `eatWord`. -/
theorem eatWord_decomp : ∀ (kw s p r : Str), eatWord kw s = some (p, r) →
    s = p ++ r ∧ p.map Char.toUpper = kw.map Char.toUpper := by
  intro kw
  induction kw with
  | nil => intro s p r h; simp [eatWord] at h; simp [h.1, h.2]
  | cons k ks ih =>
      intro s p r h
      cases s with
      | nil => simp [eatWord] at h
      | cons c cs =>
          simp only [eatWord] at h
          by_cases hc : c.toUpper = k.toUpper
          · rw [if_pos hc] at h
            cases hw : eatWord ks cs with
            | none => rw [hw] at h; simp at h
            | some pr =>
                rw [hw] at h
                cases pr with
                | mk p2 r2 =>
                    simp at h
                    have := ih cs p2 r2 hw
                    rcases h with ⟨hp, hr⟩
                    subst hp; subst hr
                    constructor
                    · simp [this.1]
                    · simp [hc, this.2]
          · rw [if_neg hc] at h
            simp at h

/-- A successful `eatWord` match extends to any continuation. -/
theorem eatWord_ext : ∀ (kw s p r : Str), eatWord kw s = some (p, r) →
    ∀ t, eatWord kw (p ++ t) = some (p, t) := by
  intro kw
  induction kw with
  | nil => intro s p r h t; simp [eatWord] at h; simp [h.1, eatWord]
  | cons k ks ih =>
      intro s p r h t
      cases s with
      | nil => simp [eatWord] at h
      | cons c cs =>
          simp only [eatWord] at h
          by_cases hc : c.toUpper = k.toUpper
          · rw [if_pos hc] at h
            cases hw : eatWord ks cs with
            | none => rw [hw] at h; simp at h
            | some pr =>
                rw [hw] at h
                cases pr with
                | mk p2 r2 =>
                    simp at h
                    rcases h with ⟨hp, hr⟩
                    subst hp
                    have := ih cs p2 r2 hw t
                    simp [eatWord, hc, this]
          · rw [if_neg hc] at h
            simp at h

/-- `eatWord` fails on a head-character mismatch. -/
theorem eatWord_none_head (k : Char) (ks : Str) (c : Char) (cs : Str)
    (hne : ¬c.toUpper = k.toUpper) : eatWord (k :: ks) (c :: cs) = none := by
  simp [eatWord, hne]

/-- Full decomposition of a successful `eatKw`. -/
theorem eatKw_parts {kw s c r : Str} (h : eatKw kw s = some (c, r)) :
    ∃ sp w, c = sp ++ w ∧ (∀ x ∈ sp, isSpace x = true) ∧
      w.map Char.toUpper = kw.map Char.toUpper ∧
      eatWord kw (w ++ r) = some (w, r) ∧
      wordBoundary r = true ∧ s = c ++ r := by
  unfold eatKw at h
  cases hw : eatWord kw (eatSpaces s).2 with
  | none => rw [hw] at h; simp at h
  | some pr =>
      rw [hw] at h
      cases pr with
      | mk p r2 =>
          dsimp only at h
          by_cases hb : wordBoundary r2 = true
          · rw [if_pos hb] at h
            simp at h
            obtain ⟨hc, hr⟩ := h
            subst hr
            have hd := eatWord_decomp kw (eatSpaces s).2 p r2 hw
            have hsd := eatSpaces_decomp s
            refine ⟨(eatSpaces s).1, p, hc.symm, hsd.2.1, hd.2, ?_, hb, ?_⟩
            · exact eatWord_ext kw (eatSpaces s).2 p r2 hw r2
            · rw [← hc]
              calc s = (eatSpaces s).1 ++ (eatSpaces s).2 := hsd.1
                _ = (eatSpaces s).1 ++ (p ++ r2) := by rw [← hd.1]
                _ = (eatSpaces s).1 ++ p ++ r2 := by simp
          · rw [if_neg hb] at h
            simp at h

theorem goodKw_facts {kw : Str} (hg : goodKw kw = true) :
    kw ≠ [] ∧ ∀ k ∈ kw, inertChar k.toUpper = true ∧ isSpace k.toUpper = false := by
  simp [goodKw, List.all_eq_true] at hg
  constructor
  · intro hcon
    rw [hcon] at hg
    simp at hg
  · intro k hk
    have h2 := hg.2 k hk
    exact ⟨h2.1, by simpa using h2.2⟩

/-- The span consumed by `eatKw` is inert for the splitter. -/
theorem eatKw_inert {kw s c r : Str} (hg : goodKw kw = true)
    (h : eatKw kw s = some (c, r)) : ∀ x ∈ c, inertChar x = true := by
  rcases eatKw_parts h with ⟨sp, w, hc, hsp, hmap, _, _, _⟩
  intro x hx
  rw [hc] at hx
  rcases List.mem_append.mp hx with hx | hx
  · exact isSpace_inert x (hsp x hx)
  · have hxu : x.toUpper ∈ kw.map Char.toUpper := by
      rw [← hmap]
      exact List.mem_map_of_mem Char.toUpper hx
    rcases List.mem_map.mp hxu with ⟨k, hk, hku⟩
    have hkg : inertChar k.toUpper = true := ((goodKw_facts hg).2 k hk).1
    exact matched_inert hku.symm hkg

/-- A successful `eatKw` extends to any continuation that still starts at
a word boundary. -/
theorem eatKw_ext {kw s c r : Str} (hg : goodKw kw = true)
    (h : eatKw kw s = some (c, r)) :
    ∀ t, wordBoundary t = true → eatKw kw (c ++ t) = some (c, t) := by
  intro t hbt
  rcases eatKw_parts h with ⟨sp, w, hc, hsp, hmap, hword, hbr, hdec⟩
  have hkwne : kw ≠ [] := (goodKw_facts hg).1
  have hwne : w ≠ [] := by
    intro hcon
    rw [hcon] at hmap
    cases kw with
    | nil => exact hkwne rfl
    | cons k ks => exact absurd hmap (by simp)
  cases w with
  | nil => exact absurd rfl hwne
  | cons w0 w' =>
      cases kw with
      | nil => exact absurd rfl hkwne
      | cons k0 ks =>
          have hmap0 : w0.toUpper = k0.toUpper := by
            simp at hmap
            exact hmap.1
          have hk0 : isSpace k0.toUpper = false :=
            ((goodKw_facts hg).2 k0 (by simp)).2
          have hw0 : isSpace w0 = false := matched_not_space hmap0 hk0
          have hsp2 : eatSpaces (c ++ t) = (sp, (w0 :: w') ++ t) := by
            rw [hc]
            rw [show (sp ++ w0 :: w') ++ t = sp ++ ((w0 :: w') ++ t) by simp]
            exact eatSpaces_of sp ((w0 :: w') ++ t) hsp
              (Or.inr ⟨w0, w' ++ t, by simp, hw0⟩)
          have hword2 : eatWord (k0 :: ks) ((w0 :: w') ++ t) =
              some (w0 :: w', t) := by
            have := eatWord_decomp (k0 :: ks) ((w0 :: w') ++ r) (w0 :: w') r hword
            exact eatWord_ext (k0 :: ks) ((w0 :: w') ++ r) (w0 :: w') r hword t
          unfold eatKw
          rw [hsp2]
          dsimp only
          rw [hword2]
          dsimp only
          rw [if_pos hbt, hc]

/-- When the text starts at a word boundary, the span consumed by a
successful `eatKw` of a non-empty keyword starts with a space. -/
theorem eatKw_head_space {kw s c r : Str} (hkw : kw ≠ [])
    (hb : wordBoundary s = true) (h : eatKw kw s = some (c, r)) :
    ∃ c0 d, c = c0 :: d ∧ isSpace c0 = true := by
  cases s with
  | nil =>
      exfalso
      cases kw with
      | nil => exact hkw rfl
      | cons k ks => simp [eatKw, eatSpaces, eatWord] at h
  | cons c0 s' =>
      have hc0 : isSpace c0 = true := by simpa [wordBoundary] using hb
      have he : eatSpaces (c0 :: s') =
          (c0 :: (eatSpaces s').1, (eatSpaces s').2) := by
        simp [eatSpaces, hc0]
      unfold eatKw at h
      rw [he] at h
      cases hw : eatWord kw (eatSpaces s').2 with
      | none => rw [hw] at h; simp at h
      | some pr =>
          rw [hw] at h
          cases pr with
          | mk p r2 =>
              dsimp only at h
              by_cases hb2 : wordBoundary r2 = true
              · rw [if_pos hb2] at h
                simp at h
                exact ⟨c0, (eatSpaces s').1 ++ p, by rw [← h.1], hc0⟩
              · rw [if_neg hb2] at h
                simp at h

/-- `eatKw` fails when the first non-space character does not match the
keyword head. -/
theorem eatKw_none_head {k : Char} {ks t : Str} {c : Char} {cs : Str}
    (h : (eatSpaces t).2 = c :: cs) (hne : ¬c.toUpper = k.toUpper) :
    eatKw (k :: ks) t = none := by
  unfold eatKw
  rw [h, eatWord_none_head k ks c cs hne]

/-- Basic decomposition of a successful `eatKw`. -/
theorem eatKw_split {kw s c r : Str} (h : eatKw kw s = some (c, r)) :
    s = c ++ r ∧ wordBoundary r = true := by
  rcases eatKw_parts h with ⟨sp, w, _, _, _, _, hb, hd⟩
  exact ⟨hd, hb⟩

/-- Decomposition of a successful `eatKws`. -/
theorem eatKws_decomp : ∀ (kws : List Str) (s c r : Str),
    eatKws kws s = some (c, r) → s = c ++ r := by
  intro kws
  induction kws with
  | nil => intro s c r h; simp [eatKws] at h; simp [h.1, h.2]
  | cons kw kws ih =>
      intro s c r h
      simp only [eatKws] at h
      cases h1 : eatKw kw s with
      | none => rw [h1] at h; simp at h
      | some pr =>
          rw [h1] at h
          cases pr with
          | mk p r1 =>
              dsimp only at h
              cases h2 : eatKws kws r1 with
              | none => rw [h2] at h; simp at h
              | some qr =>
                  rw [h2] at h
                  cases qr with
                  | mk q r2 =>
                      simp at h
                      have hd1 := (eatKw_split h1).1
                      have hd2 := ih r1 q r2 h2
                      rw [← h.1, ← h.2]
                      rw [hd1, hd2]
                      simp

/-- A successful `eatKws` extends to any continuation that still starts
at a word boundary. -/
theorem eatKws_ext : ∀ (kws : List Str) (s c r : Str),
    (∀ kw ∈ kws, goodKw kw = true) → eatKws kws s = some (c, r) →
    ∀ t, wordBoundary t = true → eatKws kws (c ++ t) = some (c, t) := by
  intro kws
  induction kws with
  | nil =>
      intro s c r _ h t _
      simp [eatKws] at h
      simp [eatKws, h.1]
  | cons kw kws ih =>
      intro s c r hgood h t hbt
      simp only [eatKws] at h
      cases h1 : eatKw kw s with
      | none => rw [h1] at h; simp at h
      | some pr =>
          rw [h1] at h
          cases pr with
          | mk p r1 =>
              dsimp only at h
              cases h2 : eatKws kws r1 with
              | none => rw [h2] at h; simp at h
              | some qr =>
                  rw [h2] at h
                  cases qr with
                  | mk q r2 =>
                      simp at h
                      have hgkw : goodKw kw = true := hgood kw (by simp)
                      have hrec := ih r1 q r2
                        (fun k hk => hgood k (by simp [hk])) h2 t hbt
                      have hbq : wordBoundary (q ++ t) = true := by
                        cases kws with
                        | nil =>
                            simp [eatKws] at h2
                            rw [h2.1]
                            simpa using hbt
                        | cons kw2 kws2 =>
                            simp only [eatKws] at h2
                            cases h3 : eatKw kw2 r1 with
                            | none => rw [h3] at h2; simp at h2
                            | some pr2 =>
                                rw [h3] at h2
                                cases pr2 with
                                | mk p2 r3 =>
                                    have hbr1 : wordBoundary r1 = true :=
                                      (eatKw_split h1).2
                                    have hkw2ne : kw2 ≠ [] :=
                                      (goodKw_facts (hgood kw2 (by simp))).1
                                    rcases eatKw_head_space hkw2ne hbr1 h3 with
                                      ⟨c0, d, hp2, hc0⟩
                                    dsimp only at h2
                                    cases h4 : eatKws kws2 r3 with
                                    | none => rw [h4] at h2; simp at h2
                                    | some qr2 =>
                                        rw [h4] at h2
                                        cases qr2 with
                                        | mk q2 r4 =>
                                            simp at h2
                                            rw [← h2.1, hp2]
                                            simp [wordBoundary, hc0]
                      have hext := eatKw_ext hgkw h1 (q ++ t) hbq
                      rw [← h.1]
                      simp only [eatKws]
                      rw [show (p ++ q) ++ t = p ++ (q ++ t) by simp]
                      rw [hext]
                      dsimp only
                      rw [hrec]

/-- Decomposition of `eatToken`: the input splits as consumed token plus
rest, and the consumed span is inert. -/
theorem eatToken_decomp (s : Str) :
    s = (eatToken s).1 ++ (eatToken s).2 ∧
    (∀ x ∈ (eatToken s).1, inertChar x = true) := by
  unfold eatToken
  have hsd := eatSpaces_decomp s
  constructor
  · calc s = (eatSpaces s).1 ++ (eatSpaces s).2 := hsd.1
      _ = (eatSpaces s).1 ++
            ((eatSpaces s).2.takeWhile isNameChar ++
              (eatSpaces s).2.dropWhile isNameChar) := by
          rw [List.takeWhile_append_dropWhile]
      _ = _ := by simp
  · intro x hx
    simp at hx
    rcases hx with hx | hx
    · exact isSpace_inert x (hsd.2.1 x hx)
    · exact isNameChar_inert x (List.mem_takeWhile_imp hx)

def upStr (s : Str) : Str := s.map Char.toUpper

/-- Substring occurrence test. -/
def hasSubstr (pat : Str) : Str → Bool
  | [] => pat.isPrefixOf []
  | c :: rest => pat.isPrefixOf (c :: rest) || hasSubstr pat rest

theorem isPrefixOf_append_self : ∀ (p b : Str), p.isPrefixOf (p ++ b) = true := by
  intro p
  induction p with
  | nil => intro b; simp [List.isPrefixOf]
  | cons c p ih => intro b; simp [List.isPrefixOf, ih]

theorem hasSubstr_of_middle (pat : Str) : ∀ (a b : Str),
    hasSubstr pat (a ++ (pat ++ b)) = true := by
  intro a
  induction a with
  | nil =>
      intro b
      cases hp : pat ++ b with
      | nil => simp [hasSubstr, hp ▸ isPrefixOf_append_self pat b]
      | cons c rest =>
          have := isPrefixOf_append_self pat b
          rw [hp] at this
          simp [hasSubstr, this]
  | cons c a ih =>
      intro b
      simp [hasSubstr, ih b]

def kwCREATE : Str := ("CREATE").toList
def kwALTER : Str := ("ALTER").toList
def kwDROP : Str := ("DROP").toList
def kwTABLE : Str := ("TABLE").toList
def kwUNIQUE : Str := ("UNIQUE").toList
def kwINDEX : Str := ("INDEX").toList
def kwCONCURRENTLY : Str := ("CONCURRENTLY").toList
def kwOR : Str := ("OR").toList
def kwREPLACE : Str := ("REPLACE").toList
def kwFUNCTION : Str := ("FUNCTION").toList
def kwVIEW : Str := ("VIEW").toList
def kwTYPE : Str := ("TYPE").toList
def kwTRIGGER : Str := ("TRIGGER").toList
def kwPOLICY : Str := ("POLICY").toList
def kwEXTENSION : Str := ("EXTENSION").toList
def kwSCHEMA : Str := ("SCHEMA").toList
def kwIF : Str := ("IF").toList
def kwNOT : Str := ("NOT").toList
def kwEXISTS : Str := ("EXISTS").toList

def insINE : Str := (" IF NOT EXISTS").toList
def insIE : Str := (" IF EXISTS").toList
def insOR : Str := (" OR REPLACE").toList
def markADDCOL : Str := ("ADD COLUMN").toList
def markADDVAL : Str := ("ADD VALUE").toList

/-- Modelled from the spec: the closed set of statement kinds recognised
by the Statement Classifier. -/
inductive StKind where
  | createTable
  | createUniqueIndex
  | createIndex
  | createIndexConc
  | createType
  | createFunction
  | createView
  | createTrigger
  | createPolicy
  | createExtension
  | createSchema
  | alterTableAddColumn
  | alterTypeAddValue
  | dropStmt
  | unknown
deriving DecidableEq

/-- Classifier result: kind, the text before the guard insertion point,
the text after it, and the extracted object name. -/
structure CRes where
  kind : StKind
  pre : Str
  rest : Str
  oname : Str
deriving DecidableEq

/-- Object name: the name-like token at the head of the remainder. -/
def nameAt (s : Str) : Str := (eatSpaces s).2.takeWhile isNameChar

def tryTable (c1 r1 : Str) : Option CRes :=
  match eatKw kwTABLE r1 with
  | some (c2, r2) => some ⟨.createTable, c1 ++ c2, r2, nameAt r2⟩
  | none => none

def tryUniqueIndex (c1 r1 : Str) : Option CRes :=
  match eatKws [kwUNIQUE, kwINDEX] r1 with
  | some (c2, r2) =>
    match eatKw kwCONCURRENTLY r2 with
    | some (c3, r3) => some ⟨.createIndexConc, c1 ++ c2 ++ c3, r3, nameAt r3⟩
    | none => some ⟨.createUniqueIndex, c1 ++ c2, r2, nameAt r2⟩
  | none => none

def tryIndex (c1 r1 : Str) : Option CRes :=
  match eatKw kwINDEX r1 with
  | some (c2, r2) =>
    match eatKw kwCONCURRENTLY r2 with
    | some (c3, r3) => some ⟨.createIndexConc, c1 ++ c2 ++ c3, r3, nameAt r3⟩
    | none => some ⟨.createIndex, c1 ++ c2, r2, nameAt r2⟩
  | none => none

def tryOrReplace (s c1 r1 : Str) : Option CRes :=
  match eatKws [kwOR, kwREPLACE] r1 with
  | some (_, r2) =>
    match eatKw kwFUNCTION r2 with
    | some (_, r3) => some ⟨.createFunction, c1, r1, nameAt r3⟩
    | none =>
      match eatKw kwVIEW r2 with
      | some (_, r3) => some ⟨.createView, c1, r1, nameAt r3⟩
      | none => some ⟨.unknown, [], s, []⟩
  | none => none

def tryType (c1 r1 : Str) : Option CRes :=
  match eatKw kwTYPE r1 with
  | some (c2, r2) => some ⟨.createType, c1 ++ c2, r2, nameAt r2⟩
  | none => none

def tryFunction (c1 r1 : Str) : Option CRes :=
  match eatKw kwFUNCTION r1 with
  | some (_, r2) => some ⟨.createFunction, c1, r1, nameAt r2⟩
  | none => none

def tryView (c1 r1 : Str) : Option CRes :=
  match eatKw kwVIEW r1 with
  | some (_, r2) => some ⟨.createView, c1, r1, nameAt r2⟩
  | none => none

def tryTrigger (c1 r1 : Str) : Option CRes :=
  match eatKw kwTRIGGER r1 with
  | some (c2, r2) => some ⟨.createTrigger, c1 ++ c2, r2, nameAt r2⟩
  | none => none

def tryPolicy (c1 r1 : Str) : Option CRes :=
  match eatKw kwPOLICY r1 with
  | some (c2, r2) => some ⟨.createPolicy, c1 ++ c2, r2, nameAt r2⟩
  | none => none

def tryExtension (c1 r1 : Str) : Option CRes :=
  match eatKw kwEXTENSION r1 with
  | some (c2, r2) => some ⟨.createExtension, c1 ++ c2, r2, nameAt r2⟩
  | none => none

def trySchema (c1 r1 : Str) : Option CRes :=
  match eatKw kwSCHEMA r1 with
  | some (c2, r2) => some ⟨.createSchema, c1 ++ c2, r2, nameAt r2⟩
  | none => none

/-- Modelled from the spec: keyword-prefix classification of a `CREATE`
statement, in priority order. -/
def classifyCreate (s c1 r1 : Str) : CRes :=
  (tryTable c1 r1).getD
  ((tryUniqueIndex c1 r1).getD
  ((tryIndex c1 r1).getD
  ((tryOrReplace s c1 r1).getD
  ((tryType c1 r1).getD
  ((tryFunction c1 r1).getD
  ((tryView c1 r1).getD
  ((tryTrigger c1 r1).getD
  ((tryPolicy c1 r1).getD
  ((tryExtension c1 r1).getD
  ((trySchema c1 r1).getD
  ⟨.unknown, [], s, []⟩))))))))))

/-- Modelled from the spec: classification of an `ALTER` statement. -/
def classifyAlter (s c1 r1 : Str) : CRes :=
  match eatKw kwTABLE r1 with
  | some (c2, r2) =>
      if hasSubstr markADDCOL (upStr s) then
        ⟨.alterTableAddColumn, c1 ++ c2, r2, nameAt r2⟩
      else ⟨.unknown, [], s, []⟩
  | none =>
    match eatKw kwTYPE r1 with
    | some (c2, r2) =>
        if hasSubstr markADDVAL (upStr s) then
          ⟨.alterTypeAddValue, c1 ++ c2, r2, nameAt r2⟩
        else ⟨.unknown, [], s, []⟩
    | none => ⟨.unknown, [], s, []⟩

/-- Modelled from the spec: the Statement Classifier.  A `DROP` is only
recognised when an object-kind token follows the verb; a `DROP` with no
recognisable object-kind token matches no recognised prefix and falls to
`unknown`. -/
def classify (s : Str) : CRes :=
  match eatKw kwCREATE s with
  | some (c1, r1) => classifyCreate s c1 r1
  | none =>
    match eatKw kwALTER s with
    | some (c1, r1) => classifyAlter s c1 r1
    | none =>
      match eatKw kwDROP s with
      | some (c1, r1) =>
          if nameAt r1 = [] then ⟨.unknown, [], s, []⟩
          else ⟨.dropStmt, c1 ++ (eatToken r1).1, (eatToken r1).2,
            nameAt (eatToken r1).2⟩
      | none => ⟨.unknown, [], s, []⟩

/-- Modelled from the spec: detection of an existing idempotency guard
appropriate to the statement kind, scoped to the statement's recognized
keyword region: the guard words must follow the recognised keywords
directly (`r` is the classifier's `rest`, the text right after them).
Guard text elsewhere in the statement — inside a string literal, a name
or a comment — is not a guard. -/
def hasGuard (k : StKind) (r : Str) : Bool :=
  match k with
  | .createTable | .createUniqueIndex | .createIndex | .createIndexConc
  | .createExtension | .createSchema =>
      (eatKwsL [kwIF, kwNOT, kwEXISTS] r).isSome
  | .createFunction | .createView => (eatKwsL [kwOR, kwREPLACE] r).isSome
  | .dropStmt => (eatKwsL [kwIF, kwEXISTS] r).isSome
  | _ => false

/-- Modelled from the spec: the Wrap Eligibility Policy rule table. -/
def canWrap (k : StKind) : Bool :=
  match k with
  | .createIndexConc => false
  | .alterTypeAddValue => false
  | .unknown => false
  | _ => true

/-- Modelled from the spec: the Idempotency Rewriter strategy table:
native guard insertion, `OR REPLACE` insertion, or a procedural wrapper. -/
def rewriteStmt (k : StKind) (pre rest s : Str) : Str :=
  match k with
  | .createTable | .createUniqueIndex | .createIndex
  | .createExtension | .createSchema => pre ++ (insINE ++ rest)
  | .dropStmt => pre ++ (insIE ++ rest)
  | .createFunction | .createView => pre ++ (insOR ++ rest)
  | .createType | .createPolicy | .createTrigger
  | .alterTableAddColumn => wrapStmt s
  | _ => s

/-- Modelled from the spec: one parsed statement with its classification
and transformation outcome. -/
structure PStmt where
  raw_text : Str
  statement_type : StKind
  object_name : Str
  is_idempotent : Bool
  can_be_wrapped : Bool
  error : Option Str
  transformed_text : Str
  warning : Option Str
deriving DecidableEq

def cannotWrapMsg : Str :=
  ("statement cannot be wrapped and is not idempotent").toList

/-- Modelled from the spec: the per-statement pipeline of Classifier,
Wrap Eligibility Policy and Idempotency Rewriter.  Already idempotent
statements, unrecognised statements and wrap-ineligible statements pass
through unchanged; only the last produce a warning. -/
def processStatement (s : Str) : PStmt :=
  let c := classify s
  if hasGuard c.kind c.rest then
    ⟨s, c.kind, c.oname, true, canWrap c.kind, none, s, none⟩
  else if canWrap c.kind then
    ⟨s, c.kind, c.oname, false, true, none, rewriteStmt c.kind c.pre c.rest s, none⟩
  else if c.kind = .unknown then
    ⟨s, c.kind, c.oname, false, false, none, s, none⟩
  else
    ⟨s, c.kind, c.oname, false, false, none, s, some cannotWrapMsg⟩

/-- Transformed text of one statement. -/
def pT (s : Str) : Str := (processStatement s).transformed_text

def fatalMsg : Str :=
  ("unterminated string, identifier, comment or dollar quote at end of input").toList

/-- Modelled from the spec: outcome of transforming a whole script. -/
structure TransformationResult where
  success : Bool
  statement_count : Nat
  transformed_count : Nat
  warnings : List Str
  errors : List Str
  transformed_sql : Str
  statements : List PStmt
deriving DecidableEq

/-- Modelled from the spec: the Transformation Orchestrator.  Splits the
script, processes every statement independently, reassembles the output
in order with the trailing non-statement text preserved, and fails only
on a Splitter-level fatal error. -/
def transform (s : Str) : TransformationResult :=
  let sp := splitSql s
  let ps := sp.statements.map processStatement
  ⟨!sp.unterminated,
   ps.length,
   (ps.filter (fun p => !(p.transformed_text == p.raw_text))).length,
   ps.filterMap (fun p => p.warning),
   if sp.unterminated then [fatalMsg] else [],
   (ps.map (fun p => p.transformed_text)).flatten ++ sp.tail,
   ps⟩

theorem upStr_append (a b : Str) : upStr (a ++ b) = upStr a ++ upStr b :=
  List.map_append ..

/-- Build an `eatKwL` success from explicit spaces, word and a loose
boundary. -/
theorem eatKwL_build (kw : Str) (hg : goodKw kw = true) (sp w t : Str)
    (hsp : ∀ x ∈ sp, isSpace x = true)
    (hw : eatWord kw w = some (w, []))
    (hbt : looseBoundary t = true) :
    eatKwL kw (sp ++ (w ++ t)) = some (sp ++ w, t) := by
  have hd := eatWord_decomp kw w w [] hw
  have hkwne : kw ≠ [] := (goodKw_facts hg).1
  cases w with
  | nil =>
      exfalso
      cases kw with
      | nil => exact hkwne rfl
      | cons k ks => simp at hd
  | cons w0 w' =>
      cases kw with
      | nil => exact absurd rfl hkwne
      | cons k0 ks =>
          have hmap0 : w0.toUpper = k0.toUpper := by
            have := hd.2
            simp at this
            exact this.1
          have hk0 : isSpace k0.toUpper = false :=
            ((goodKw_facts hg).2 k0 (by simp)).2
          have hw0 : isSpace w0 = false := matched_not_space hmap0 hk0
          have hsp2 : eatSpaces (sp ++ ((w0 :: w') ++ t)) =
              (sp, (w0 :: w') ++ t) :=
            eatSpaces_of sp ((w0 :: w') ++ t) hsp
              (Or.inr ⟨w0, w' ++ t, by simp, hw0⟩)
          have hword2 : eatWord (k0 :: ks) ((w0 :: w') ++ t) =
              some (w0 :: w', t) :=
            eatWord_ext (k0 :: ks) (w0 :: w') (w0 :: w') [] hw t
          unfold eatKwL
          rw [hsp2]
          dsimp only
          rw [hword2]
          dsimp only
          rw [if_pos hbt]

theorem guard_ine_after (r2 : Str) (hb : looseBoundary r2 = true) :
    eatKwsL [kwIF, kwNOT, kwEXISTS] (insINE ++ r2) = some (insINE, r2) := by
  have hIF : eatKwL kwIF (insINE ++ r2) = some ([' ', 'I', 'F'],
      ' ' :: ('N' :: ('O' :: ('T' :: (' ' :: ('E' :: ('X' :: ('I' ::
        ('S' :: ('T' :: ('S' :: r2))))))))))) :=
    eatKwL_build kwIF (by decide) [' '] ['I', 'F']
      (' ' :: ('N' :: ('O' :: ('T' :: (' ' :: ('E' :: ('X' :: ('I' ::
        ('S' :: ('T' :: ('S' :: r2)))))))))))
      (by decide) (by decide) rfl
  have hNOT : eatKwL kwNOT
      (' ' :: ('N' :: ('O' :: ('T' :: (' ' :: ('E' :: ('X' :: ('I' ::
        ('S' :: ('T' :: ('S' :: r2))))))))))) =
      some ([' ', 'N', 'O', 'T'],
        ' ' :: ('E' :: ('X' :: ('I' :: ('S' :: ('T' :: ('S' :: r2))))))) :=
    eatKwL_build kwNOT (by decide) [' '] ['N', 'O', 'T']
      (' ' :: ('E' :: ('X' :: ('I' :: ('S' :: ('T' :: ('S' :: r2)))))))
      (by decide) (by decide) rfl
  have hEX : eatKwL kwEXISTS
      (' ' :: ('E' :: ('X' :: ('I' :: ('S' :: ('T' :: ('S' :: r2))))))) =
      some ([' ', 'E', 'X', 'I', 'S', 'T', 'S'], r2) :=
    eatKwL_build kwEXISTS (by decide) [' '] ['E', 'X', 'I', 'S', 'T', 'S'] r2
      (by decide) (by decide) hb
  simp [eatKwsL, hIF, hNOT, hEX]
  rfl

theorem guard_ie_after (r2 : Str) (hb : looseBoundary r2 = true) :
    eatKwsL [kwIF, kwEXISTS] (insIE ++ r2) = some (insIE, r2) := by
  have hIF : eatKwL kwIF (insIE ++ r2) = some ([' ', 'I', 'F'],
      ' ' :: ('E' :: ('X' :: ('I' :: ('S' :: ('T' :: ('S' :: r2))))))) :=
    eatKwL_build kwIF (by decide) [' '] ['I', 'F']
      (' ' :: ('E' :: ('X' :: ('I' :: ('S' :: ('T' :: ('S' :: r2)))))))
      (by decide) (by decide) rfl
  have hEX : eatKwL kwEXISTS
      (' ' :: ('E' :: ('X' :: ('I' :: ('S' :: ('T' :: ('S' :: r2))))))) =
      some ([' ', 'E', 'X', 'I', 'S', 'T', 'S'], r2) :=
    eatKwL_build kwEXISTS (by decide) [' '] ['E', 'X', 'I', 'S', 'T', 'S'] r2
      (by decide) (by decide) hb
  simp [eatKwsL, hIF, hEX]
  rfl

theorem guard_or_after (r1 : Str) (hb : looseBoundary r1 = true) :
    eatKwsL [kwOR, kwREPLACE] (insOR ++ r1) = some (insOR, r1) := by
  have hOR : eatKwL kwOR (insOR ++ r1) = some ([' ', 'O', 'R'],
      ' ' :: ('R' :: ('E' :: ('P' :: ('L' :: ('A' :: ('C' :: ('E' :: r1)))))))) :=
    eatKwL_build kwOR (by decide) [' '] ['O', 'R']
      (' ' :: ('R' :: ('E' :: ('P' :: ('L' :: ('A' :: ('C' :: ('E' :: r1))))))))
      (by decide) (by decide) rfl
  have hRE : eatKwL kwREPLACE
      (' ' :: ('R' :: ('E' :: ('P' :: ('L' :: ('A' :: ('C' :: ('E' :: r1)))))))) =
      some ([' ', 'R', 'E', 'P', 'L', 'A', 'C', 'E'], r1) :=
    eatKwL_build kwREPLACE (by decide) [' ']
      ['R', 'E', 'P', 'L', 'A', 'C', 'E'] r1 (by decide) (by decide) hb
  simp [eatKwsL, hOR, hRE]
  rfl

theorem pT_of_guard {s : Str}
    (h : hasGuard (classify s).kind (classify s).rest = true) :
    pT s = s := by
  simp [pT, processStatement, h]

theorem pT_of_nowrap {s : Str} (h : canWrap (classify s).kind = false) :
    pT s = s := by
  by_cases hg : hasGuard (classify s).kind (classify s).rest = true
  · simp [pT, processStatement, hg]
  · simp only [pT, processStatement]
    rw [if_neg (by simpa using hg), if_neg (by simp [h])]
    split <;> rfl

theorem pT_of_rewrite {s : Str}
    (hg : hasGuard (classify s).kind (classify s).rest = false)
    (hw : canWrap (classify s).kind = true) :
    pT s = rewriteStmt (classify s).kind (classify s).pre (classify s).rest s := by
  simp only [pT, processStatement]
  rw [if_neg (by simp [hg]), if_pos hw]

/-- Head-character structure of the span consumed by `eatKw`. -/
theorem eatKw_word_head {k : Char} {ks s c r : Str}
    (hg : goodKw (k :: ks) = true) (h : eatKw (k :: ks) s = some (c, r)) :
    ∃ sp w0 w', c = sp ++ (w0 :: w') ∧ (∀ x ∈ sp, isSpace x = true) ∧
      isSpace w0 = false ∧ w0.toUpper = k.toUpper := by
  rcases eatKw_parts h with ⟨sp, w, hc, hsp, hmap, _, _, _⟩
  cases w with
  | nil => simp at hmap
  | cons w0 w' =>
      simp at hmap
      have hk0 : isSpace k.toUpper = false := ((goodKw_facts hg).2 k (by simp)).2
      exact ⟨sp, w0, w', hc, hsp, matched_not_space hmap.1 hk0, hmap.1⟩

/-- `eatKw` fails when the word after the spaces starts with a
non-matching character. -/
theorem eatKw_none_compose (k : Char) (ks sp : Str) (w0 : Char) (tl : Str)
    (hsp : ∀ x ∈ sp, isSpace x = true) (hw0 : isSpace w0 = false)
    (hne : ¬w0.toUpper = k.toUpper) :
    eatKw (k :: ks) (sp ++ (w0 :: tl)) = none := by
  have he : eatSpaces (sp ++ (w0 :: tl)) = (sp, w0 :: tl) :=
    eatSpaces_of sp (w0 :: tl) hsp (Or.inr ⟨w0, tl, rfl, hw0⟩)
  exact eatKw_none_head (by rw [he]) hne

/-- Inversion of a two-keyword `eatKws`. -/
theorem eatKws_pair_inv {a b u c r : Str} (h : eatKws [a, b] u = some (c, r)) :
    ∃ p r1 q, eatKw a u = some (p, r1) ∧ eatKw b r1 = some (q, r) ∧
      c = p ++ q := by
  simp only [eatKws] at h
  cases h1 : eatKw a u with
  | none => rw [h1] at h; simp at h
  | some pr =>
      rw [h1] at h
      cases pr with
      | mk p r1 =>
          dsimp only at h
          cases h2 : eatKw b r1 with
          | none => rw [h2] at h; simp at h
          | some qr =>
              rw [h2] at h
              cases qr with
              | mk q r2 =>
                  simp [eatKws] at h
                  refine ⟨p, r1, q, rfl, ?_, h.1.symm⟩
                  rw [h2, h.2]

/-- Structure of the token consumed by `eatToken` at a word boundary. -/
theorem eatToken_head {r : Str} (hb : wordBoundary r = true) :
    (eatToken r).1 = [] ∨
      ∃ c0 d, (eatToken r).1 = c0 :: d ∧ isSpace c0 = true := by
  cases r with
  | nil => left; simp [eatToken, eatSpaces]
  | cons c0 r' =>
      have hc0 : isSpace c0 = true := by simpa [wordBoundary] using hb
      right
      refine ⟨c0, (eatSpaces r').1 ++ (eatSpaces r').2.takeWhile isNameChar, ?_, hc0⟩
      simp [eatToken, eatSpaces, hc0]

theorem eatWord_none_second (k1 k2 : Char) (ks : Str) (c1 c2 : Char) (cs : Str)
    (hne : ¬c2.toUpper = k2.toUpper) :
    eatWord (k1 :: k2 :: ks) (c1 :: c2 :: cs) = none := by
  by_cases h1 : c1.toUpper = k1.toUpper <;> simp [eatWord, h1, hne]

/-- The procedural wrapper is classified as unknown and passes through the
second transformation unchanged. -/
theorem pT_wrap_fix (s : Str) : pT (wrapStmt s) = wrapStmt s := by
  have hcons : wrapStmt s = 'D' :: 'O' :: ' ' ::
      ('$' :: (wrapTag s ++ (['$'] ++ (wrapInner s ++
        (['$'] ++ (wrapTag s ++ (['$'] ++ [';']))))))) := rfl
  have hsp : (eatSpaces (wrapStmt s)).2 = wrapStmt s := by
    rw [hcons]
    rfl
  have hd : (eatSpaces (wrapStmt s)).2 = 'D' :: ('O' :: ' ' ::
      ('$' :: (wrapTag s ++ (['$'] ++ (wrapInner s ++
        (['$'] ++ (wrapTag s ++ (['$'] ++ [';'])))))))) := by
    rw [hsp, hcons]
  have hCr : eatKw kwCREATE (wrapStmt s) = none :=
    eatKw_none_head hd (by decide)
  have hAl : eatKw kwALTER (wrapStmt s) = none :=
    eatKw_none_head hd (by decide)
  have hDr : eatKw kwDROP (wrapStmt s) = none := by
    unfold eatKw
    rw [hsp, hcons]
    rw [show kwDROP = 'D' :: 'R' :: 'O' :: 'P' :: [] from rfl]
    rw [eatWord_none_second 'D' 'R' ['O', 'P'] 'D' 'O' _ (by decide)]
  have hclass : classify (wrapStmt s) = ⟨.unknown, [], wrapStmt s, []⟩ := by
    simp [classify, hCr, hAl, hDr]
  simp [pT, processStatement, hclass, hasGuard, canWrap]

theorem goods_create_table :
    ∀ kw ∈ [kwCREATE, kwTABLE], goodKw kw = true := by
  intro kw hk
  simp at hk
  rcases hk with h | h <;> subst h <;> decide

/-- Re-transforming a CREATE TABLE statement after guard insertion leaves
it unchanged. -/
theorem pT_table_fix {s c1 r1 c2 r2 : Str}
    (h1 : eatKw kwCREATE s = some (c1, r1))
    (h2 : eatKw kwTABLE r1 = some (c2, r2)) :
    pT ((c1 ++ c2) ++ (insINE ++ r2)) = (c1 ++ c2) ++ (insINE ++ r2) := by
  have hpair : eatKws [kwCREATE, kwTABLE] s = some (c1 ++ c2, r2) := by
    simp [eatKws, h1, h2]
  have hb : wordBoundary (insINE ++ r2) = true := rfl
  have hext := eatKws_ext [kwCREATE, kwTABLE] s (c1 ++ c2) r2
    goods_create_table hpair (insINE ++ r2) hb
  rcases eatKws_pair_inv hext with ⟨p, r1', q, e1, e2, e3⟩
  have e1' : eatKw kwCREATE (c1 ++ (c2 ++ (insINE ++ r2))) = some (p, r1') := by
    simpa using e1
  have hclass : classify ((c1 ++ c2) ++ (insINE ++ r2)) =
      ⟨.createTable, p ++ q, insINE ++ r2, nameAt (insINE ++ r2)⟩ := by
    simp [classify, e1', classifyCreate, tryTable, e2]
  apply pT_of_guard
  rw [hclass]
  simp [hasGuard, guard_ine_after r2 (loose_of_word (eatKw_split h2).2)]

theorem eatKws_pair_none {a b u : Str} (h : eatKw a u = none) :
    eatKws [a, b] u = none := by
  simp [eatKws, h]

/-- `eatKw` fails on text whose first word starts with a non-matching
character. -/
theorem eatKw_none_mismatch (k : Char) (ks : Str) {c2 : Str} (Y : Str)
    (hparts : ∃ sp w0 w', c2 = sp ++ (w0 :: w') ∧
      (∀ x ∈ sp, isSpace x = true) ∧ isSpace w0 = false ∧
      ¬w0.toUpper = k.toUpper) :
    eatKw (k :: ks) (c2 ++ Y) = none := by
  obtain ⟨sp, w0, w', hc2, hsp, hw0, hne⟩ := hparts
  rw [hc2, show (sp ++ (w0 :: w')) ++ Y = sp ++ (w0 :: (w' ++ Y)) by simp]
  exact eatKw_none_compose k ks sp w0 (w' ++ Y) hsp hw0 hne

theorem no_conc_after_insINE (r2 : Str) :
    eatKw kwCONCURRENTLY (insINE ++ r2) = none := by
  have hI : (eatSpaces (insINE ++ r2)).2 =
      'I' :: (("F NOT EXISTS").toList ++ r2) := rfl
  exact eatKw_none_head hI (by decide)

/-- Re-transforming a CREATE UNIQUE INDEX statement after guard insertion
leaves it unchanged. -/
theorem pT_uindex_fix {s c1 r1 c2 r2 : Str}
    (h1 : eatKw kwCREATE s = some (c1, r1))
    (h2 : eatKws [kwUNIQUE, kwINDEX] r1 = some (c2, r2)) :
    pT ((c1 ++ c2) ++ (insINE ++ r2)) = (c1 ++ c2) ++ (insINE ++ r2) := by
  rcases eatKws_pair_inv h2 with ⟨p2, rm, q2, e21, e22, e23⟩
  have hbr1 : wordBoundary r1 = true := (eatKw_split h1).2
  rcases eatKw_head_space (by decide) hbr1 e21 with ⟨c0, d, hp2, hc0⟩
  have hbt : wordBoundary (c2 ++ (insINE ++ r2)) = true := by
    rw [e23, hp2]
    simp [wordBoundary, hc0]
  have hC := eatKw_ext (by decide) h1 (c2 ++ (insINE ++ r2)) hbt
  have hUI := eatKws_ext [kwUNIQUE, kwINDEX] r1 c2 r2
    (by intro kw hk; simp at hk; rcases hk with h | h <;> subst h <;> decide)
    h2 (insINE ++ r2) rfl
  obtain ⟨sp, w0, w', hpw, hsp, hw0s, hw0u⟩ := eatKw_word_head (by decide) e21
  have hwparts : ∃ sp w0 w', c2 = sp ++ (w0 :: w') ∧
      (∀ x ∈ sp, isSpace x = true) ∧ isSpace w0 = false ∧
      ¬w0.toUpper = ('T').toUpper := by
    refine ⟨sp, w0, w' ++ q2, ?_, hsp, hw0s, by rw [hw0u]; decide⟩
    rw [e23, hpw]
    simp
  have hTn : eatKw kwTABLE (c2 ++ (insINE ++ r2)) = none :=
    eatKw_none_mismatch 'T' (("ABLE").toList) (insINE ++ r2) hwparts
  have hcls : classify ((c1 ++ c2) ++ (insINE ++ r2)) =
      ⟨.createUniqueIndex, c1 ++ c2, insINE ++ r2, nameAt (insINE ++ r2)⟩ := by
    simp [classify, hC, classifyCreate, tryTable, hTn, tryUniqueIndex, hUI,
      no_conc_after_insINE]
  apply pT_of_guard
  rw [hcls]
  simp [hasGuard, guard_ine_after r2 (loose_of_word (eatKw_split e22).2)]

/-- Re-transforming a CREATE INDEX statement after guard insertion leaves
it unchanged. -/
theorem pT_index_fix {s c1 r1 c2 r2 : Str}
    (h1 : eatKw kwCREATE s = some (c1, r1))
    (h2 : eatKw kwINDEX r1 = some (c2, r2)) :
    pT ((c1 ++ c2) ++ (insINE ++ r2)) = (c1 ++ c2) ++ (insINE ++ r2) := by
  have hbr1 : wordBoundary r1 = true := (eatKw_split h1).2
  rcases eatKw_head_space (by decide) hbr1 h2 with ⟨c0, d, hp2, hc0⟩
  have hbt : wordBoundary (c2 ++ (insINE ++ r2)) = true := by
    rw [hp2]
    simp [wordBoundary, hc0]
  have hC := eatKw_ext (by decide) h1 (c2 ++ (insINE ++ r2)) hbt
  have hIx := eatKw_ext (by decide) h2 (insINE ++ r2) rfl
  obtain ⟨sp, w0, w', hpw, hsp, hw0s, hw0u⟩ := eatKw_word_head (by decide) h2
  have hwpT : ∃ sp w0 w', c2 = sp ++ (w0 :: w') ∧
      (∀ x ∈ sp, isSpace x = true) ∧ isSpace w0 = false ∧
      ¬w0.toUpper = ('T').toUpper :=
    ⟨sp, w0, w', hpw, hsp, hw0s, by rw [hw0u]; decide⟩
  have hwpU : ∃ sp w0 w', c2 = sp ++ (w0 :: w') ∧
      (∀ x ∈ sp, isSpace x = true) ∧ isSpace w0 = false ∧
      ¬w0.toUpper = ('U').toUpper :=
    ⟨sp, w0, w', hpw, hsp, hw0s, by rw [hw0u]; decide⟩
  have hTn : eatKw kwTABLE (c2 ++ (insINE ++ r2)) = none :=
    eatKw_none_mismatch 'T' (("ABLE").toList) (insINE ++ r2) hwpT
  have hUn : eatKws [kwUNIQUE, kwINDEX] (c2 ++ (insINE ++ r2)) = none :=
    eatKws_pair_none
      (eatKw_none_mismatch 'U' (("NIQUE").toList) (insINE ++ r2) hwpU)
  have hcls : classify ((c1 ++ c2) ++ (insINE ++ r2)) =
      ⟨.createIndex, c1 ++ c2, insINE ++ r2, nameAt (insINE ++ r2)⟩ := by
    simp [classify, hC, classifyCreate, tryTable, hTn, tryUniqueIndex, hUn,
      tryIndex, hIx, no_conc_after_insINE]
  apply pT_of_guard
  rw [hcls]
  simp [hasGuard, guard_ine_after r2 (loose_of_word (eatKw_split h2).2)]

/-- Build an `eatKw` success from explicit spaces, word and boundary. -/
theorem eatKw_build (kw : Str) (hg : goodKw kw = true) (sp w t : Str)
    (hsp : ∀ x ∈ sp, isSpace x = true)
    (hw : eatWord kw w = some (w, []))
    (hbt : wordBoundary t = true) :
    eatKw kw (sp ++ (w ++ t)) = some (sp ++ w, t) := by
  have hd := eatWord_decomp kw w w [] hw
  have hkwne : kw ≠ [] := (goodKw_facts hg).1
  cases w with
  | nil =>
      exfalso
      cases kw with
      | nil => exact hkwne rfl
      | cons k ks => simp at hd
  | cons w0 w' =>
      cases kw with
      | nil => exact absurd rfl hkwne
      | cons k0 ks =>
          have hmap0 : w0.toUpper = k0.toUpper := by
            have := hd.2
            simp at this
            exact this.1
          have hk0 : isSpace k0.toUpper = false :=
            ((goodKw_facts hg).2 k0 (by simp)).2
          have hw0 : isSpace w0 = false := matched_not_space hmap0 hk0
          have hsp2 : eatSpaces (sp ++ ((w0 :: w') ++ t)) =
              (sp, (w0 :: w') ++ t) :=
            eatSpaces_of sp ((w0 :: w') ++ t) hsp
              (Or.inr ⟨w0, w' ++ t, by simp, hw0⟩)
          have hword2 : eatWord (k0 :: ks) ((w0 :: w') ++ t) =
              some (w0 :: w', t) :=
            eatWord_ext (k0 :: ks) (w0 :: w') (w0 :: w') [] hw t
          unfold eatKw
          rw [hsp2]
          dsimp only
          rw [hword2]
          dsimp only
          rw [if_pos hbt]

/-- Re-transforming after an `OR REPLACE` insertion right after `CREATE`
leaves the statement unchanged, whatever follows. -/
theorem pT_orins_fix {s c1 r1 : Str}
    (h1 : eatKw kwCREATE s = some (c1, r1)) :
    pT (c1 ++ (insOR ++ r1)) = c1 ++ (insOR ++ r1) := by
  have hbr1 : wordBoundary r1 = true := (eatKw_split h1).2
  have hC := eatKw_ext (by decide) h1 (insOR ++ r1) rfl
  have hor2 : (eatSpaces (insOR ++ r1)).2 =
      'O' :: ('R' :: (' ' :: (("REPLACE").toList ++ r1))) := rfl
  have hTn : eatKw kwTABLE (insOR ++ r1) = none :=
    eatKw_none_head hor2 (by decide)
  have hUn : eatKws [kwUNIQUE, kwINDEX] (insOR ++ r1) = none :=
    eatKws_pair_none (eatKw_none_head hor2 (by decide))
  have hIn : eatKw kwINDEX (insOR ++ r1) = none :=
    eatKw_none_head hor2 (by decide)
  have hOR : eatKw kwOR (insOR ++ r1) =
      some ([' ', 'O', 'R'], ' ' :: (("REPLACE").toList ++ r1)) :=
    eatKw_build kwOR (by decide) [' '] ['O', 'R']
      (' ' :: (("REPLACE").toList ++ r1)) (by decide) (by decide) rfl
  have hRE : eatKw kwREPLACE
      (' ' :: 'R' :: 'E' :: 'P' :: 'L' :: 'A' :: 'C' :: 'E' :: r1) =
      some ([' ', 'R', 'E', 'P', 'L', 'A', 'C', 'E'], r1) :=
    eatKw_build kwREPLACE (by decide) [' '] (("REPLACE").toList) r1
      (by decide) (by decide) hbr1
  have hORP : eatKws [kwOR, kwREPLACE] (insOR ++ r1) =
      some (insOR, r1) := by
    simp [eatKws, hOR, hRE]
    rfl
  cases hF : eatKw kwFUNCTION r1 with
  | some pr =>
      cases pr with
      | mk a b =>
          have hcls : classify (c1 ++ (insOR ++ r1)) =
              ⟨.createFunction, c1, insOR ++ r1, nameAt b⟩ := by
            simp [classify, hC, classifyCreate, tryTable, hTn,
              tryUniqueIndex, hUn, tryIndex, hIn, tryOrReplace, hORP, hF]
          apply pT_of_guard
          rw [hcls]
          simp [hasGuard, guard_or_after r1 (loose_of_word hbr1)]
  | none =>
      cases hV : eatKw kwVIEW r1 with
      | some pr =>
          cases pr with
          | mk a b =>
              have hcls : classify (c1 ++ (insOR ++ r1)) =
                  ⟨.createView, c1, insOR ++ r1, nameAt b⟩ := by
                simp [classify, hC, classifyCreate, tryTable, hTn,
                  tryUniqueIndex, hUn, tryIndex, hIn, tryOrReplace, hORP, hF, hV]
              apply pT_of_guard
              rw [hcls]
              simp [hasGuard, guard_or_after r1 (loose_of_word hbr1)]
      | none =>
          have hcls : classify (c1 ++ (insOR ++ r1)) =
              ⟨.unknown, [], c1 ++ (insOR ++ r1), []⟩ := by
            simp [classify, hC, classifyCreate, tryTable, hTn,
              tryUniqueIndex, hUn, tryIndex, hIn, tryOrReplace, hORP, hF, hV]
          simp [pT, processStatement, hcls, hasGuard, canWrap]

/-- Re-transforming a CREATE EXTENSION statement after guard insertion
leaves it unchanged. -/
theorem pT_ext_fix {s c1 r1 c2 r2 : Str}
    (h1 : eatKw kwCREATE s = some (c1, r1))
    (h2 : eatKw kwEXTENSION r1 = some (c2, r2)) :
    pT ((c1 ++ c2) ++ (insINE ++ r2)) = (c1 ++ c2) ++ (insINE ++ r2) := by
  have hbr1 : wordBoundary r1 = true := (eatKw_split h1).2
  rcases eatKw_head_space (by decide) hbr1 h2 with ⟨c0, d, hp2, hc0⟩
  have hbt : wordBoundary (c2 ++ (insINE ++ r2)) = true := by
    rw [hp2]
    simp [wordBoundary, hc0]
  have hC := eatKw_ext (by decide) h1 (c2 ++ (insINE ++ r2)) hbt
  have hEx := eatKw_ext (by decide) h2 (insINE ++ r2) rfl
  obtain ⟨sp, w0, w', hpw, hsp, hw0s, hw0u⟩ := eatKw_word_head (by decide) h2
  have hTn : eatKw kwTABLE (c2 ++ (insINE ++ r2)) = none :=
    eatKw_none_mismatch 'T' (("ABLE").toList) (insINE ++ r2)
      ⟨sp, w0, w', hpw, hsp, hw0s, by rw [hw0u]; decide⟩
  have hUn : eatKws [kwUNIQUE, kwINDEX] (c2 ++ (insINE ++ r2)) = none :=
    eatKws_pair_none (eatKw_none_mismatch 'U' (("NIQUE").toList) (insINE ++ r2)
      ⟨sp, w0, w', hpw, hsp, hw0s, by rw [hw0u]; decide⟩)
  have hIn : eatKw kwINDEX (c2 ++ (insINE ++ r2)) = none :=
    eatKw_none_mismatch 'I' (("NDEX").toList) (insINE ++ r2)
      ⟨sp, w0, w', hpw, hsp, hw0s, by rw [hw0u]; decide⟩
  have hOn : eatKws [kwOR, kwREPLACE] (c2 ++ (insINE ++ r2)) = none :=
    eatKws_pair_none (eatKw_none_mismatch 'O' (("R").toList) (insINE ++ r2)
      ⟨sp, w0, w', hpw, hsp, hw0s, by rw [hw0u]; decide⟩)
  have hTyn : eatKw kwTYPE (c2 ++ (insINE ++ r2)) = none :=
    eatKw_none_mismatch 'T' (("YPE").toList) (insINE ++ r2)
      ⟨sp, w0, w', hpw, hsp, hw0s, by rw [hw0u]; decide⟩
  have hFn : eatKw kwFUNCTION (c2 ++ (insINE ++ r2)) = none :=
    eatKw_none_mismatch 'F' (("UNCTION").toList) (insINE ++ r2)
      ⟨sp, w0, w', hpw, hsp, hw0s, by rw [hw0u]; decide⟩
  have hVn : eatKw kwVIEW (c2 ++ (insINE ++ r2)) = none :=
    eatKw_none_mismatch 'V' (("IEW").toList) (insINE ++ r2)
      ⟨sp, w0, w', hpw, hsp, hw0s, by rw [hw0u]; decide⟩
  have hTrn : eatKw kwTRIGGER (c2 ++ (insINE ++ r2)) = none :=
    eatKw_none_mismatch 'T' (("RIGGER").toList) (insINE ++ r2)
      ⟨sp, w0, w', hpw, hsp, hw0s, by rw [hw0u]; decide⟩
  have hPn : eatKw kwPOLICY (c2 ++ (insINE ++ r2)) = none :=
    eatKw_none_mismatch 'P' (("OLICY").toList) (insINE ++ r2)
      ⟨sp, w0, w', hpw, hsp, hw0s, by rw [hw0u]; decide⟩
  have hcls : classify ((c1 ++ c2) ++ (insINE ++ r2)) =
      ⟨.createExtension, c1 ++ c2, insINE ++ r2, nameAt (insINE ++ r2)⟩ := by
    simp [classify, hC, classifyCreate, tryTable, hTn, tryUniqueIndex, hUn,
      tryIndex, hIn, tryOrReplace, hOn, tryType, hTyn, tryFunction, hFn,
      tryView, hVn, tryTrigger, hTrn, tryPolicy, hPn, tryExtension, hEx]
  apply pT_of_guard
  rw [hcls]
  simp [hasGuard, guard_ine_after r2 (loose_of_word (eatKw_split h2).2)]

/-- Re-transforming a CREATE SCHEMA statement after guard insertion leaves
it unchanged. -/
theorem pT_schema_fix {s c1 r1 c2 r2 : Str}
    (h1 : eatKw kwCREATE s = some (c1, r1))
    (h2 : eatKw kwSCHEMA r1 = some (c2, r2)) :
    pT ((c1 ++ c2) ++ (insINE ++ r2)) = (c1 ++ c2) ++ (insINE ++ r2) := by
  have hbr1 : wordBoundary r1 = true := (eatKw_split h1).2
  rcases eatKw_head_space (by decide) hbr1 h2 with ⟨c0, d, hp2, hc0⟩
  have hbt : wordBoundary (c2 ++ (insINE ++ r2)) = true := by
    rw [hp2]
    simp [wordBoundary, hc0]
  have hC := eatKw_ext (by decide) h1 (c2 ++ (insINE ++ r2)) hbt
  have hSc := eatKw_ext (by decide) h2 (insINE ++ r2) rfl
  obtain ⟨sp, w0, w', hpw, hsp, hw0s, hw0u⟩ := eatKw_word_head (by decide) h2
  have hTn : eatKw kwTABLE (c2 ++ (insINE ++ r2)) = none :=
    eatKw_none_mismatch 'T' (("ABLE").toList) (insINE ++ r2)
      ⟨sp, w0, w', hpw, hsp, hw0s, by rw [hw0u]; decide⟩
  have hUn : eatKws [kwUNIQUE, kwINDEX] (c2 ++ (insINE ++ r2)) = none :=
    eatKws_pair_none (eatKw_none_mismatch 'U' (("NIQUE").toList) (insINE ++ r2)
      ⟨sp, w0, w', hpw, hsp, hw0s, by rw [hw0u]; decide⟩)
  have hIn : eatKw kwINDEX (c2 ++ (insINE ++ r2)) = none :=
    eatKw_none_mismatch 'I' (("NDEX").toList) (insINE ++ r2)
      ⟨sp, w0, w', hpw, hsp, hw0s, by rw [hw0u]; decide⟩
  have hOn : eatKws [kwOR, kwREPLACE] (c2 ++ (insINE ++ r2)) = none :=
    eatKws_pair_none (eatKw_none_mismatch 'O' (("R").toList) (insINE ++ r2)
      ⟨sp, w0, w', hpw, hsp, hw0s, by rw [hw0u]; decide⟩)
  have hTyn : eatKw kwTYPE (c2 ++ (insINE ++ r2)) = none :=
    eatKw_none_mismatch 'T' (("YPE").toList) (insINE ++ r2)
      ⟨sp, w0, w', hpw, hsp, hw0s, by rw [hw0u]; decide⟩
  have hFn : eatKw kwFUNCTION (c2 ++ (insINE ++ r2)) = none :=
    eatKw_none_mismatch 'F' (("UNCTION").toList) (insINE ++ r2)
      ⟨sp, w0, w', hpw, hsp, hw0s, by rw [hw0u]; decide⟩
  have hVn : eatKw kwVIEW (c2 ++ (insINE ++ r2)) = none :=
    eatKw_none_mismatch 'V' (("IEW").toList) (insINE ++ r2)
      ⟨sp, w0, w', hpw, hsp, hw0s, by rw [hw0u]; decide⟩
  have hTrn : eatKw kwTRIGGER (c2 ++ (insINE ++ r2)) = none :=
    eatKw_none_mismatch 'T' (("RIGGER").toList) (insINE ++ r2)
      ⟨sp, w0, w', hpw, hsp, hw0s, by rw [hw0u]; decide⟩
  have hPn : eatKw kwPOLICY (c2 ++ (insINE ++ r2)) = none :=
    eatKw_none_mismatch 'P' (("OLICY").toList) (insINE ++ r2)
      ⟨sp, w0, w', hpw, hsp, hw0s, by rw [hw0u]; decide⟩
  have hEn : eatKw kwEXTENSION (c2 ++ (insINE ++ r2)) = none :=
    eatKw_none_mismatch 'E' (("XTENSION").toList) (insINE ++ r2)
      ⟨sp, w0, w', hpw, hsp, hw0s, by rw [hw0u]; decide⟩
  have hcls : classify ((c1 ++ c2) ++ (insINE ++ r2)) =
      ⟨.createSchema, c1 ++ c2, insINE ++ r2, nameAt (insINE ++ r2)⟩ := by
    simp [classify, hC, classifyCreate, tryTable, hTn, tryUniqueIndex, hUn,
      tryIndex, hIn, tryOrReplace, hOn, tryType, hTyn, tryFunction, hFn,
      tryView, hVn, tryTrigger, hTrn, tryPolicy, hPn, tryExtension, hEn,
      trySchema, hSc]
  apply pT_of_guard
  rw [hcls]
  simp [hasGuard, guard_ine_after r2 (loose_of_word (eatKw_split h2).2)]

/-- Re-transforming a DROP statement after guard insertion leaves it
unchanged. -/
theorem pT_drop_fix {s c1 r1 : Str}
    (h1 : eatKw kwDROP s = some (c1, r1)) (hn : ¬nameAt r1 = []) :
    pT ((c1 ++ (eatToken r1).1) ++ (insIE ++ (eatToken r1).2)) =
      (c1 ++ (eatToken r1).1) ++ (insIE ++ (eatToken r1).2) := by
  have hbr1 : wordBoundary r1 = true := (eatKw_split h1).2
  obtain ⟨sp, w0, w', hpw, hsp, hw0s, hw0u⟩ := eatKw_word_head (by decide) h1
  have hbt : wordBoundary ((eatToken r1).1 ++ (insIE ++ (eatToken r1).2)) = true := by
    rcases eatToken_head hbr1 with ht | ⟨c0, d, ht, hc0⟩
    · rw [ht]; rfl
    · rw [ht]; simp [wordBoundary, hc0]
  have hCn : eatKw kwCREATE
      (c1 ++ ((eatToken r1).1 ++ (insIE ++ (eatToken r1).2))) = none :=
    eatKw_none_mismatch 'C' (("REATE").toList) _
      ⟨sp, w0, w', hpw, hsp, hw0s, by rw [hw0u]; decide⟩
  have hAn : eatKw kwALTER
      (c1 ++ ((eatToken r1).1 ++ (insIE ++ (eatToken r1).2))) = none :=
    eatKw_none_mismatch 'A' (("LTER").toList) _
      ⟨sp, w0, w', hpw, hsp, hw0s, by rw [hw0u]; decide⟩
  have hD := eatKw_ext (by decide) h1
    ((eatToken r1).1 ++ (insIE ++ (eatToken r1).2)) hbt
  have hnm : ∀ x ∈ nameAt r1, isNameChar x = true :=
    (takeWhile_props isNameChar (eatSpaces r1).2).1
  have hrest0 : (eatToken r1).2 = [] ∨
      ∃ c cs, (eatToken r1).2 = c :: cs ∧ isNameChar c = false :=
    (takeWhile_props isNameChar (eatSpaces r1).2).2
  obtain ⟨n0, n', hn0⟩ : ∃ n0 n', nameAt r1 = n0 :: n' := by
    cases hcase : nameAt r1 with
    | nil => exact absurd hcase hn
    | cons a b => exact ⟨a, b, rfl⟩
  have hn0name : isNameChar n0 = true := hnm n0 (by rw [hn0]; simp)
  have hn0sp : isSpace n0 = false := nameChar_not_space n0 hn0name
  have htok : (eatToken r1).1 = (eatSpaces r1).1 ++ nameAt r1 := rfl
  have hre1 : eatSpaces ((eatToken r1).1 ++ (insIE ++ (eatToken r1).2)) =
      ((eatSpaces r1).1, nameAt r1 ++ (insIE ++ (eatToken r1).2)) := by
    rw [htok, show ((eatSpaces r1).1 ++ nameAt r1) ++ (insIE ++ (eatToken r1).2) =
      (eatSpaces r1).1 ++ (nameAt r1 ++ (insIE ++ (eatToken r1).2)) by simp]
    exact eatSpaces_of (eatSpaces r1).1 _ (eatSpaces_decomp r1).2.1
      (Or.inr ⟨n0, n' ++ (insIE ++ (eatToken r1).2), by rw [hn0]; simp, hn0sp⟩)
  have htw := takeWhile_append_stop isNameChar (nameAt r1)
    (insIE ++ (eatToken r1).2) hnm
    (Or.inr ⟨' ', ("IF EXISTS").toList ++ (eatToken r1).2, rfl, by decide⟩)
  have hretok : eatToken ((eatToken r1).1 ++ (insIE ++ (eatToken r1).2)) =
      ((eatToken r1).1, insIE ++ (eatToken r1).2) := by
    have he : eatToken ((eatToken r1).1 ++ (insIE ++ (eatToken r1).2)) =
        ((eatSpaces ((eatToken r1).1 ++ (insIE ++ (eatToken r1).2))).1 ++
          (eatSpaces ((eatToken r1).1 ++
            (insIE ++ (eatToken r1).2))).2.takeWhile isNameChar,
         (eatSpaces ((eatToken r1).1 ++
            (insIE ++ (eatToken r1).2))).2.dropWhile isNameChar) := rfl
    rw [he, hre1]
    dsimp only
    rw [htw.1, htw.2, ← htok]
  have hnameAt : nameAt ((eatToken r1).1 ++ (insIE ++ (eatToken r1).2)) =
      nameAt r1 := by
    have he : nameAt ((eatToken r1).1 ++ (insIE ++ (eatToken r1).2)) =
        (eatSpaces ((eatToken r1).1 ++
          (insIE ++ (eatToken r1).2))).2.takeWhile isNameChar := rfl
    rw [he, hre1]
    exact htw.1
  have hn' : ¬nameAt ((eatToken r1).1 ++ (insIE ++ (eatToken r1).2)) = [] := by
    rw [hnameAt]; exact hn
  have hcls : classify ((c1 ++ (eatToken r1).1) ++ (insIE ++ (eatToken r1).2)) =
      ⟨.dropStmt, c1 ++ (eatToken r1).1, insIE ++ (eatToken r1).2,
        nameAt (insIE ++ (eatToken r1).2)⟩ := by
    simp [classify, hCn, hAn, hD, hn', hretok]
  apply pT_of_guard
  rw [hcls]
  have hlb : looseBoundary (eatToken r1).2 = true := by
    rcases hrest0 with hd | ⟨c, cs, hd, hc⟩
    · rw [hd]; rfl
    · rw [hd]; simp [looseBoundary, hc]
  simp [hasGuard, guard_ie_after _ hlb]

/-- Per-statement idempotence: transforming an already transformed
statement text leaves it unchanged. -/
theorem pT_idem (s : Str) : pT (pT s) = pT s := by
  by_cases hg : hasGuard (classify s).kind (classify s).rest = true
  · simp only [pT_of_guard hg]
  by_cases hw : canWrap (classify s).kind = true
  case neg => simp only [pT_of_nowrap (by simpa using hw)]
  have hg' : hasGuard (classify s).kind (classify s).rest = false := by
    simpa using hg
  rw [pT_of_rewrite hg' hw]
  cases hC : eatKw kwCREATE s with
  | some pr1 =>
    obtain ⟨c1, r1⟩ := pr1
    cases hT : eatKw kwTABLE r1 with
    | some pr2 =>
      obtain ⟨c2, r2⟩ := pr2
      have hcls : classify s = ⟨.createTable, c1 ++ c2, r2, nameAt r2⟩ := by
        simp [classify, hC, classifyCreate, tryTable, hT]
      rw [hcls]
      exact pT_table_fix hC hT
    | none =>
      cases hU : eatKws [kwUNIQUE, kwINDEX] r1 with
      | some pr2 =>
        obtain ⟨c2, r2⟩ := pr2
        cases hCC : eatKw kwCONCURRENTLY r2 with
        | some pr3 =>
          obtain ⟨c3, r3⟩ := pr3
          have hcls : classify s =
              ⟨.createIndexConc, c1 ++ c2 ++ c3, r3, nameAt r3⟩ := by
            simp [classify, hC, classifyCreate, tryTable, hT,
              tryUniqueIndex, hU, hCC]
          rw [hcls] at hw
          simp [canWrap] at hw
        | none =>
          have hcls : classify s =
              ⟨.createUniqueIndex, c1 ++ c2, r2, nameAt r2⟩ := by
            simp [classify, hC, classifyCreate, tryTable, hT,
              tryUniqueIndex, hU, hCC]
          rw [hcls]
          exact pT_uindex_fix hC hU
      | none =>
        cases hI : eatKw kwINDEX r1 with
        | some pr2 =>
          obtain ⟨c2, r2⟩ := pr2
          cases hCC : eatKw kwCONCURRENTLY r2 with
          | some pr3 =>
            obtain ⟨c3, r3⟩ := pr3
            have hcls : classify s =
                ⟨.createIndexConc, c1 ++ c2 ++ c3, r3, nameAt r3⟩ := by
              simp [classify, hC, classifyCreate, tryTable, hT,
                tryUniqueIndex, hU, tryIndex, hI, hCC]
            rw [hcls] at hw
            simp [canWrap] at hw
          | none =>
            have hcls : classify s =
                ⟨.createIndex, c1 ++ c2, r2, nameAt r2⟩ := by
              simp [classify, hC, classifyCreate, tryTable, hT,
                tryUniqueIndex, hU, tryIndex, hI, hCC]
            rw [hcls]
            exact pT_index_fix hC hI
        | none =>
          cases hO : eatKws [kwOR, kwREPLACE] r1 with
          | some pr2 =>
            obtain ⟨c2, r2⟩ := pr2
            cases hF : eatKw kwFUNCTION r2 with
            | some pr3 =>
              obtain ⟨c3, r3⟩ := pr3
              have hcls : classify s = ⟨.createFunction, c1, r1, nameAt r3⟩ := by
                simp [classify, hC, classifyCreate, tryTable, hT,
                  tryUniqueIndex, hU, tryIndex, hI, tryOrReplace, hO, hF]
              rw [hcls]
              exact pT_orins_fix hC
            | none =>
              cases hV : eatKw kwVIEW r2 with
              | some pr3 =>
                obtain ⟨c3, r3⟩ := pr3
                have hcls : classify s = ⟨.createView, c1, r1, nameAt r3⟩ := by
                  simp [classify, hC, classifyCreate, tryTable, hT,
                    tryUniqueIndex, hU, tryIndex, hI, tryOrReplace, hO, hF, hV]
                rw [hcls]
                exact pT_orins_fix hC
              | none =>
                have hcls : classify s = ⟨.unknown, [], s, []⟩ := by
                  simp [classify, hC, classifyCreate, tryTable, hT,
                    tryUniqueIndex, hU, tryIndex, hI, tryOrReplace, hO, hF, hV]
                rw [hcls] at hw
                simp [canWrap] at hw
          | none =>
            cases hTy : eatKw kwTYPE r1 with
            | some pr2 =>
              obtain ⟨c2, r2⟩ := pr2
              have hcls : classify s =
                  ⟨.createType, c1 ++ c2, r2, nameAt r2⟩ := by
                simp [classify, hC, classifyCreate, tryTable, hT,
                  tryUniqueIndex, hU, tryIndex, hI, tryOrReplace, hO,
                  tryType, hTy]
              rw [hcls]
              exact pT_wrap_fix s
            | none =>
              cases hF : eatKw kwFUNCTION r1 with
              | some pr2 =>
                obtain ⟨c2, r2⟩ := pr2
                have hcls : classify s =
                    ⟨.createFunction, c1, r1, nameAt r2⟩ := by
                  simp [classify, hC, classifyCreate, tryTable, hT,
                    tryUniqueIndex, hU, tryIndex, hI, tryOrReplace, hO,
                    tryType, hTy, tryFunction, hF]
                rw [hcls]
                exact pT_orins_fix hC
              | none =>
                cases hV : eatKw kwVIEW r1 with
                | some pr2 =>
                  obtain ⟨c2, r2⟩ := pr2
                  have hcls : classify s =
                      ⟨.createView, c1, r1, nameAt r2⟩ := by
                    simp [classify, hC, classifyCreate, tryTable, hT,
                      tryUniqueIndex, hU, tryIndex, hI, tryOrReplace, hO,
                      tryType, hTy, tryFunction, hF, tryView, hV]
                  rw [hcls]
                  exact pT_orins_fix hC
                | none =>
                  cases hTr : eatKw kwTRIGGER r1 with
                  | some pr2 =>
                    obtain ⟨c2, r2⟩ := pr2
                    have hcls : classify s =
                        ⟨.createTrigger, c1 ++ c2, r2, nameAt r2⟩ := by
                      simp [classify, hC, classifyCreate, tryTable, hT,
                        tryUniqueIndex, hU, tryIndex, hI, tryOrReplace, hO,
                        tryType, hTy, tryFunction, hF, tryView, hV,
                        tryTrigger, hTr]
                    rw [hcls]
                    exact pT_wrap_fix s
                  | none =>
                    cases hP : eatKw kwPOLICY r1 with
                    | some pr2 =>
                      obtain ⟨c2, r2⟩ := pr2
                      have hcls : classify s =
                          ⟨.createPolicy, c1 ++ c2, r2, nameAt r2⟩ := by
                        simp [classify, hC, classifyCreate, tryTable, hT,
                          tryUniqueIndex, hU, tryIndex, hI, tryOrReplace, hO,
                          tryType, hTy, tryFunction, hF, tryView, hV,
                          tryTrigger, hTr, tryPolicy, hP]
                      rw [hcls]
                      exact pT_wrap_fix s
                    | none =>
                      cases hE : eatKw kwEXTENSION r1 with
                      | some pr2 =>
                        obtain ⟨c2, r2⟩ := pr2
                        have hcls : classify s =
                            ⟨.createExtension, c1 ++ c2, r2, nameAt r2⟩ := by
                          simp [classify, hC, classifyCreate, tryTable, hT,
                            tryUniqueIndex, hU, tryIndex, hI, tryOrReplace, hO,
                            tryType, hTy, tryFunction, hF, tryView, hV,
                            tryTrigger, hTr, tryPolicy, hP, tryExtension, hE]
                        rw [hcls]
                        exact pT_ext_fix hC hE
                      | none =>
                        cases hS : eatKw kwSCHEMA r1 with
                        | some pr2 =>
                          obtain ⟨c2, r2⟩ := pr2
                          have hcls : classify s =
                              ⟨.createSchema, c1 ++ c2, r2, nameAt r2⟩ := by
                            simp [classify, hC, classifyCreate, tryTable, hT,
                              tryUniqueIndex, hU, tryIndex, hI, tryOrReplace, hO,
                              tryType, hTy, tryFunction, hF, tryView, hV,
                              tryTrigger, hTr, tryPolicy, hP, tryExtension, hE,
                              trySchema, hS]
                          rw [hcls]
                          exact pT_schema_fix hC hS
                        | none =>
                          have hcls : classify s = ⟨.unknown, [], s, []⟩ := by
                            simp [classify, hC, classifyCreate, tryTable, hT,
                              tryUniqueIndex, hU, tryIndex, hI, tryOrReplace, hO,
                              tryType, hTy, tryFunction, hF, tryView, hV,
                              tryTrigger, hTr, tryPolicy, hP, tryExtension, hE,
                              trySchema, hS]
                          rw [hcls] at hw
                          simp [canWrap] at hw
  | none =>
    cases hA : eatKw kwALTER s with
    | some pr1 =>
      obtain ⟨c1, r1⟩ := pr1
      cases hT : eatKw kwTABLE r1 with
      | some pr2 =>
        obtain ⟨c2, r2⟩ := pr2
        by_cases hAC : hasSubstr markADDCOL (upStr s) = true
        · have hcls : classify s =
              ⟨.alterTableAddColumn, c1 ++ c2, r2, nameAt r2⟩ := by
            simp [classify, hC, hA, classifyAlter, hT, hAC]
          rw [hcls]
          exact pT_wrap_fix s
        · have hcls : classify s = ⟨.unknown, [], s, []⟩ := by
            simp [classify, hC, hA, classifyAlter, hT, hAC]
          rw [hcls] at hw
          simp [canWrap] at hw
      | none =>
        cases hTy : eatKw kwTYPE r1 with
        | some pr2 =>
          obtain ⟨c2, r2⟩ := pr2
          by_cases hAV : hasSubstr markADDVAL (upStr s) = true
          · have hcls : classify s =
                ⟨.alterTypeAddValue, c1 ++ c2, r2, nameAt r2⟩ := by
              simp [classify, hC, hA, classifyAlter, hT, hTy, hAV]
            rw [hcls] at hw
            simp [canWrap] at hw
          · have hcls : classify s = ⟨.unknown, [], s, []⟩ := by
              simp [classify, hC, hA, classifyAlter, hT, hTy, hAV]
            rw [hcls] at hw
            simp [canWrap] at hw
        | none =>
          have hcls : classify s = ⟨.unknown, [], s, []⟩ := by
            simp [classify, hC, hA, classifyAlter, hT, hTy]
          rw [hcls] at hw
          simp [canWrap] at hw
    | none =>
      cases hD : eatKw kwDROP s with
      | some pr1 =>
        obtain ⟨c1, r1⟩ := pr1
        by_cases hN : nameAt r1 = []
        · have hcls : classify s = ⟨.unknown, [], s, []⟩ := by
            simp [classify, hC, hA, hD, hN]
          rw [hcls] at hw
          simp [canWrap] at hw
        · have hcls : classify s = ⟨.dropStmt, c1 ++ (eatToken r1).1,
              (eatToken r1).2, nameAt (eatToken r1).2⟩ := by
            simp [classify, hC, hA, hD, hN]
          rw [hcls]
          exact pT_drop_fix hD hN
      | none =>
        have hcls : classify s = ⟨.unknown, [], s, []⟩ := by
          simp [classify, hC, hA, hD]
        rw [hcls] at hw
        simp [canWrap] at hw

theorem complete_ins_two {kwa kwb s c1 r1 c2 r2 : Str} (mid : Str)
    (hga : goodKw kwa = true) (hgb : goodKw kwb = true)
    (hmid : ∀ x ∈ mid, inertChar x = true)
    (h1 : eatKw kwa s = some (c1, r1)) (h2 : eatKw kwb r1 = some (c2, r2))
    (hc : Complete s) : Complete ((c1 ++ c2) ++ (mid ++ r2)) := by
  have hseq : s = (c1 ++ c2) ++ r2 := by
    rw [(eatKw_split h1).1, (eatKw_split h2).1]
    simp
  refine complete_insert (c1 ++ c2) mid r2 ?_ hmid (hseq ▸ hc)
  intro x hx
  rcases List.mem_append.mp hx with hx | hx
  · exact eatKw_inert hga h1 x hx
  · exact eatKw_inert hgb h2 x hx

theorem complete_ins_one {kwa s c1 r1 : Str} (mid : Str)
    (hga : goodKw kwa = true) (hmid : ∀ x ∈ mid, inertChar x = true)
    (h1 : eatKw kwa s = some (c1, r1)) (hc : Complete s) :
    Complete (c1 ++ (mid ++ r1)) := by
  refine complete_insert c1 mid r1 (eatKw_inert hga h1) hmid ?_
  rw [← (eatKw_split h1).1]
  exact hc

theorem complete_ins_pair {s c1 r1 c2 r2 : Str} (mid : Str)
    (hmid : ∀ x ∈ mid, inertChar x = true)
    (h1 : eatKw kwCREATE s = some (c1, r1))
    (h2 : eatKws [kwUNIQUE, kwINDEX] r1 = some (c2, r2))
    (hc : Complete s) : Complete ((c1 ++ c2) ++ (mid ++ r2)) := by
  rcases eatKws_pair_inv h2 with ⟨p2, rm, q2, e21, e22, e23⟩
  have hseq : s = (c1 ++ c2) ++ r2 := by
    rw [(eatKw_split h1).1, eatKws_decomp [kwUNIQUE, kwINDEX] r1 c2 r2 h2]
    simp
  refine complete_insert (c1 ++ c2) mid r2 ?_ hmid (hseq ▸ hc)
  intro x hx
  rcases List.mem_append.mp hx with hx | hx
  · exact eatKw_inert (by decide) h1 x hx
  · rw [e23] at hx
    rcases List.mem_append.mp hx with hx | hx
    · exact eatKw_inert (by decide) e21 x hx
    · exact eatKw_inert (by decide) e22 x hx

theorem complete_ins_drop {s c1 r1 : Str}
    (h1 : eatKw kwDROP s = some (c1, r1)) (hc : Complete s) :
    Complete ((c1 ++ (eatToken r1).1) ++ (insIE ++ (eatToken r1).2)) := by
  have hseq : s = (c1 ++ (eatToken r1).1) ++ (eatToken r1).2 := by
    rw [(eatKw_split h1).1]
    conv =>
      lhs
      rw [(eatToken_decomp r1).1]
    simp
  refine complete_insert (c1 ++ (eatToken r1).1) insIE (eatToken r1).2
    ?_ (by decide) (hseq ▸ hc)
  intro x hx
  rcases List.mem_append.mp hx with hx | hx
  · exact eatKw_inert (by decide) h1 x hx
  · exact (eatToken_decomp r1).2 x hx

/-- Per-statement completeness preservation: the transformed text of a
complete statement is itself complete for the Splitter. -/
theorem pT_complete (s : Str) (hc : Complete s) : Complete (pT s) := by
  by_cases hg : hasGuard (classify s).kind (classify s).rest = true
  · rw [pT_of_guard hg]; exact hc
  by_cases hw : canWrap (classify s).kind = true
  case neg => rw [pT_of_nowrap (by simpa using hw)]; exact hc
  rw [pT_of_rewrite (by simpa using hg) hw]
  cases hC : eatKw kwCREATE s with
  | some pr1 =>
    obtain ⟨c1, r1⟩ := pr1
    cases hT : eatKw kwTABLE r1 with
    | some pr2 =>
      obtain ⟨c2, r2⟩ := pr2
      have hcls : classify s = ⟨.createTable, c1 ++ c2, r2, nameAt r2⟩ := by
        simp [classify, hC, classifyCreate, tryTable, hT]
      rw [hcls]
      exact complete_ins_two insINE (by decide) (by decide) (by decide) hC hT hc
    | none =>
      cases hU : eatKws [kwUNIQUE, kwINDEX] r1 with
      | some pr2 =>
        obtain ⟨c2, r2⟩ := pr2
        cases hCC : eatKw kwCONCURRENTLY r2 with
        | some pr3 =>
          obtain ⟨c3, r3⟩ := pr3
          have hcls : classify s =
              ⟨.createIndexConc, c1 ++ c2 ++ c3, r3, nameAt r3⟩ := by
            simp [classify, hC, classifyCreate, tryTable, hT,
              tryUniqueIndex, hU, hCC]
          rw [hcls] at hw
          simp [canWrap] at hw
        | none =>
          have hcls : classify s =
              ⟨.createUniqueIndex, c1 ++ c2, r2, nameAt r2⟩ := by
            simp [classify, hC, classifyCreate, tryTable, hT,
              tryUniqueIndex, hU, hCC]
          rw [hcls]
          exact complete_ins_pair insINE (by decide) hC hU hc
      | none =>
        cases hI : eatKw kwINDEX r1 with
        | some pr2 =>
          obtain ⟨c2, r2⟩ := pr2
          cases hCC : eatKw kwCONCURRENTLY r2 with
          | some pr3 =>
            obtain ⟨c3, r3⟩ := pr3
            have hcls : classify s =
                ⟨.createIndexConc, c1 ++ c2 ++ c3, r3, nameAt r3⟩ := by
              simp [classify, hC, classifyCreate, tryTable, hT,
                tryUniqueIndex, hU, tryIndex, hI, hCC]
            rw [hcls] at hw
            simp [canWrap] at hw
          | none =>
            have hcls : classify s =
                ⟨.createIndex, c1 ++ c2, r2, nameAt r2⟩ := by
              simp [classify, hC, classifyCreate, tryTable, hT,
                tryUniqueIndex, hU, tryIndex, hI, hCC]
            rw [hcls]
            exact complete_ins_two insINE (by decide) (by decide) (by decide) hC hI hc
        | none =>
          cases hO : eatKws [kwOR, kwREPLACE] r1 with
          | some pr2 =>
            obtain ⟨c2, r2⟩ := pr2
            cases hF : eatKw kwFUNCTION r2 with
            | some pr3 =>
              obtain ⟨c3, r3⟩ := pr3
              have hcls : classify s = ⟨.createFunction, c1, r1, nameAt r3⟩ := by
                simp [classify, hC, classifyCreate, tryTable, hT,
                  tryUniqueIndex, hU, tryIndex, hI, tryOrReplace, hO, hF]
              rw [hcls]
              exact complete_ins_one insOR (by decide) (by decide) hC hc
            | none =>
              cases hV : eatKw kwVIEW r2 with
              | some pr3 =>
                obtain ⟨c3, r3⟩ := pr3
                have hcls : classify s = ⟨.createView, c1, r1, nameAt r3⟩ := by
                  simp [classify, hC, classifyCreate, tryTable, hT,
                    tryUniqueIndex, hU, tryIndex, hI, tryOrReplace, hO, hF, hV]
                rw [hcls]
                exact complete_ins_one insOR (by decide) (by decide) hC hc
              | none =>
                have hcls : classify s = ⟨.unknown, [], s, []⟩ := by
                  simp [classify, hC, classifyCreate, tryTable, hT,
                    tryUniqueIndex, hU, tryIndex, hI, tryOrReplace, hO, hF, hV]
                rw [hcls] at hw
                simp [canWrap] at hw
          | none =>
            cases hTy : eatKw kwTYPE r1 with
            | some pr2 =>
              obtain ⟨c2, r2⟩ := pr2
              have hcls : classify s =
                  ⟨.createType, c1 ++ c2, r2, nameAt r2⟩ := by
                simp [classify, hC, classifyCreate, tryTable, hT,
                  tryUniqueIndex, hU, tryIndex, hI, tryOrReplace, hO,
                  tryType, hTy]
              rw [hcls]
              exact wrapStmt_complete s
            | none =>
              cases hF : eatKw kwFUNCTION r1 with
              | some pr2 =>
                obtain ⟨c2, r2⟩ := pr2
                have hcls : classify s =
                    ⟨.createFunction, c1, r1, nameAt r2⟩ := by
                  simp [classify, hC, classifyCreate, tryTable, hT,
                    tryUniqueIndex, hU, tryIndex, hI, tryOrReplace, hO,
                    tryType, hTy, tryFunction, hF]
                rw [hcls]
                exact complete_ins_one insOR (by decide) (by decide) hC hc
              | none =>
                cases hV : eatKw kwVIEW r1 with
                | some pr2 =>
                  obtain ⟨c2, r2⟩ := pr2
                  have hcls : classify s =
                      ⟨.createView, c1, r1, nameAt r2⟩ := by
                    simp [classify, hC, classifyCreate, tryTable, hT,
                      tryUniqueIndex, hU, tryIndex, hI, tryOrReplace, hO,
                      tryType, hTy, tryFunction, hF, tryView, hV]
                  rw [hcls]
                  exact complete_ins_one insOR (by decide) (by decide) hC hc
                | none =>
                  cases hTr : eatKw kwTRIGGER r1 with
                  | some pr2 =>
                    obtain ⟨c2, r2⟩ := pr2
                    have hcls : classify s =
                        ⟨.createTrigger, c1 ++ c2, r2, nameAt r2⟩ := by
                      simp [classify, hC, classifyCreate, tryTable, hT,
                        tryUniqueIndex, hU, tryIndex, hI, tryOrReplace, hO,
                        tryType, hTy, tryFunction, hF, tryView, hV,
                        tryTrigger, hTr]
                    rw [hcls]
                    exact wrapStmt_complete s
                  | none =>
                    cases hP : eatKw kwPOLICY r1 with
                    | some pr2 =>
                      obtain ⟨c2, r2⟩ := pr2
                      have hcls : classify s =
                          ⟨.createPolicy, c1 ++ c2, r2, nameAt r2⟩ := by
                        simp [classify, hC, classifyCreate, tryTable, hT,
                          tryUniqueIndex, hU, tryIndex, hI, tryOrReplace, hO,
                          tryType, hTy, tryFunction, hF, tryView, hV,
                          tryTrigger, hTr, tryPolicy, hP]
                      rw [hcls]
                      exact wrapStmt_complete s
                    | none =>
                      cases hE : eatKw kwEXTENSION r1 with
                      | some pr2 =>
                        obtain ⟨c2, r2⟩ := pr2
                        have hcls : classify s =
                            ⟨.createExtension, c1 ++ c2, r2, nameAt r2⟩ := by
                          simp [classify, hC, classifyCreate, tryTable, hT,
                            tryUniqueIndex, hU, tryIndex, hI, tryOrReplace, hO,
                            tryType, hTy, tryFunction, hF, tryView, hV,
                            tryTrigger, hTr, tryPolicy, hP, tryExtension, hE]
                        rw [hcls]
                        exact complete_ins_two insINE (by decide) (by decide)
                          (by decide) hC hE hc
                      | none =>
                        cases hS : eatKw kwSCHEMA r1 with
                        | some pr2 =>
                          obtain ⟨c2, r2⟩ := pr2
                          have hcls : classify s =
                              ⟨.createSchema, c1 ++ c2, r2, nameAt r2⟩ := by
                            simp [classify, hC, classifyCreate, tryTable, hT,
                              tryUniqueIndex, hU, tryIndex, hI, tryOrReplace, hO,
                              tryType, hTy, tryFunction, hF, tryView, hV,
                              tryTrigger, hTr, tryPolicy, hP, tryExtension, hE,
                              trySchema, hS]
                          rw [hcls]
                          exact complete_ins_two insINE (by decide) (by decide)
                            (by decide) hC hS hc
                        | none =>
                          have hcls : classify s = ⟨.unknown, [], s, []⟩ := by
                            simp [classify, hC, classifyCreate, tryTable, hT,
                              tryUniqueIndex, hU, tryIndex, hI, tryOrReplace, hO,
                              tryType, hTy, tryFunction, hF, tryView, hV,
                              tryTrigger, hTr, tryPolicy, hP, tryExtension, hE,
                              trySchema, hS]
                          rw [hcls] at hw
                          simp [canWrap] at hw
  | none =>
    cases hA : eatKw kwALTER s with
    | some pr1 =>
      obtain ⟨c1, r1⟩ := pr1
      cases hT : eatKw kwTABLE r1 with
      | some pr2 =>
        obtain ⟨c2, r2⟩ := pr2
        by_cases hAC : hasSubstr markADDCOL (upStr s) = true
        · have hcls : classify s =
              ⟨.alterTableAddColumn, c1 ++ c2, r2, nameAt r2⟩ := by
            simp [classify, hC, hA, classifyAlter, hT, hAC]
          rw [hcls]
          exact wrapStmt_complete s
        · have hcls : classify s = ⟨.unknown, [], s, []⟩ := by
            simp [classify, hC, hA, classifyAlter, hT, hAC]
          rw [hcls] at hw
          simp [canWrap] at hw
      | none =>
        cases hTy : eatKw kwTYPE r1 with
        | some pr2 =>
          obtain ⟨c2, r2⟩ := pr2
          by_cases hAV : hasSubstr markADDVAL (upStr s) = true
          · have hcls : classify s =
                ⟨.alterTypeAddValue, c1 ++ c2, r2, nameAt r2⟩ := by
              simp [classify, hC, hA, classifyAlter, hT, hTy, hAV]
            rw [hcls] at hw
            simp [canWrap] at hw
          · have hcls : classify s = ⟨.unknown, [], s, []⟩ := by
              simp [classify, hC, hA, classifyAlter, hT, hTy, hAV]
            rw [hcls] at hw
            simp [canWrap] at hw
        | none =>
          have hcls : classify s = ⟨.unknown, [], s, []⟩ := by
            simp [classify, hC, hA, classifyAlter, hT, hTy]
          rw [hcls] at hw
          simp [canWrap] at hw
    | none =>
      cases hD : eatKw kwDROP s with
      | some pr1 =>
        obtain ⟨c1, r1⟩ := pr1
        by_cases hN : nameAt r1 = []
        · have hcls : classify s = ⟨.unknown, [], s, []⟩ := by
            simp [classify, hC, hA, hD, hN]
          rw [hcls] at hw
          simp [canWrap] at hw
        · have hcls : classify s = ⟨.dropStmt, c1 ++ (eatToken r1).1,
              (eatToken r1).2, nameAt (eatToken r1).2⟩ := by
            simp [classify, hC, hA, hD, hN]
          rw [hcls]
          exact complete_ins_drop hD hc
      | none =>
        have hcls : classify s = ⟨.unknown, [], s, []⟩ := by
          simp [classify, hC, hA, hD]
        rw [hcls] at hw
        simp [canWrap] at hw

theorem transform_sql_eq (S : Str) :
    (transform S).transformed_sql =
      ((scan S).stmts.map pT).flatten ++ (scan S).buf := by
  simp [transform, splitSql, List.map_map]
  rfl

/-- Re-splitting the transformed output recovers exactly the transformed
statements and the original trailing text. -/
theorem transform_resplit (S : Str) :
    scan ((transform S).transformed_sql) =
      ⟨(scan S).mode, (scan S).buf, (scan S).stmts.map pT⟩ := by
  rw [transform_sql_eq]
  apply scan_flatten
  · intro t ht
    rcases List.mem_map.mp ht with ⟨u, hu, huv⟩
    rw [← huv]
    exact pT_complete u ((scan_inv S).1 u hu)
  · exact (scan_inv S).2.1

theorem processStatement_error_none (s : Str) :
    (processStatement s).error = none := by
  unfold processStatement
  dsimp only
  by_cases h1 : hasGuard (classify s).kind (classify s).rest = true
  · rw [if_pos h1]
  · rw [if_neg h1]
    by_cases h2 : canWrap (classify s).kind = true
    · rw [if_pos h2]
    · rw [if_neg h2]
      by_cases h3 : (classify s).kind = .unknown
      · rw [if_pos h3]
      · rw [if_neg h3]

/-- C1: transforming already transformed output is a no-op on the text. -/
theorem transform_idempotent (S : Str) :
    (transform (transform S).transformed_sql).transformed_sql =
      (transform S).transformed_sql := by
  rw [transform_sql_eq ((transform S).transformed_sql), transform_resplit,
    transform_sql_eq S]
  have hmm : ((scan S).stmts.map pT).map pT = (scan S).stmts.map pT := by
    rw [List.map_map]
    exact List.map_congr_left (fun u _ => pT_idem u)
  rw [show (⟨(scan S).mode, (scan S).buf, (scan S).stmts.map pT⟩ : ScanSt).stmts
      = (scan S).stmts.map pT from rfl]
  rw [hmm]

/-- C2: transformation never changes the number of top-level statements. -/
theorem transform_statement_count (S : Str) :
    (splitSql (transform S).transformed_sql).statements.length =
      (splitSql S).statements.length := by
  show (scan (transform S).transformed_sql).stmts.length = (scan S).stmts.length
  rw [transform_resplit]
  simp

/-- C3: the whole-script transformation fails exactly on a Splitter-level
fatal error; statements are processed independently, per-statement
outcomes never carry an error, and warnings are exactly the per-statement
warnings. -/
theorem transform_error_policy (S : Str) :
    ((transform S).success = false ↔ (splitSql S).unterminated = true) ∧
    (transform S).statements = (splitSql S).statements.map processStatement ∧
    (∀ p ∈ (transform S).statements, p.error = none) ∧
    (transform S).warnings =
      (transform S).statements.filterMap (fun p => p.warning) := by
  refine ⟨?_, rfl, ?_, rfl⟩
  · show (!(splitSql S).unterminated) = false ↔ _
    simp
  · intro p hp
    rcases List.mem_map.mp hp with ⟨u, _, huv⟩
    rw [← huv]
    exact processStatement_error_none u

def funcPre : Str := ("CREATE FUNCTION f() RETURNS trigger AS ").toList

def funcPost : Str := (" LANGUAGE plpgsql").toList

/-- C4: a dollar-quoted function body is never split at inner semicolons:
the whole statement splits as exactly one statement, because a semicolon
only terminates in normal mode and an empty-tag dollar quote is only
closed by the matching empty-tag delimiter. -/
theorem dollar_quote_single_statement (body : Str) (hb : '$' ∉ body) :
    splitSql (funcPre ++ (['$'] ++ (['$'] ++ (body ++
        (['$'] ++ (['$'] ++ (funcPost ++ [';']))))))) =
      ⟨[funcPre ++ (['$'] ++ (['$'] ++ (body ++
        (['$'] ++ (['$'] ++ (funcPost ++ [';']))))))], [], false⟩ := by
  have hscan : scan (funcPre ++ (['$'] ++ (['$'] ++ (body ++
      (['$'] ++ (['$'] ++ (funcPost ++ [';']))))))) =
      ⟨.normal, [], [funcPre ++ (['$'] ++ (['$'] ++ (body ++
        (['$'] ++ (['$'] ++ (funcPost ++ [';']))))))]⟩ := by
    show List.foldl step initSt _ = _
    rw [foldl_step_append, foldl_step_append, foldl_step_append,
      foldl_step_append, foldl_step_append, foldl_step_append,
      foldl_step_append]
    have h1 : funcPre.foldl step initSt = ⟨.normal, funcPre, []⟩ := by
      have := scan_inert funcPre [] [] (by decide)
      simpa [initSt] using this
    rw [h1]
    have h2 : (['$'] : Str).foldl step ⟨.normal, funcPre, []⟩ =
        ⟨.tagOpen [], funcPre ++ ['$'], []⟩ := by
      rw [List.foldl_cons, step_keep (by decide)]
      simp [stepMode, normMode]
    rw [h2]
    have h3 : (['$'] : Str).foldl step ⟨.tagOpen [], funcPre ++ ['$'], []⟩ =
        ⟨.dollar [], (funcPre ++ ['$']) ++ ['$'], []⟩ := by
      rw [List.foldl_cons, step_keep (by decide)]
      simp [stepMode]
    rw [h3]
    have h4 : body.foldl step ⟨.dollar [], (funcPre ++ ['$']) ++ ['$'], []⟩ =
        ⟨.dollar [], ((funcPre ++ ['$']) ++ ['$']) ++ body, []⟩ :=
      scan_dollar_no_dollar body [] _ []
        (fun x hx hcon => hb (hcon ▸ hx))
    rw [h4]
    have h5 : (['$'] : Str).foldl step
        ⟨.dollar [], ((funcPre ++ ['$']) ++ ['$']) ++ body, []⟩ =
        ⟨.dollarEnd [] [], (((funcPre ++ ['$']) ++ ['$']) ++ body) ++ ['$'], []⟩ := by
      rw [List.foldl_cons, step_keep (by simp [emits])]
      simp [stepMode]
    rw [h5]
    have h6 : (['$'] : Str).foldl step
        ⟨.dollarEnd [] [], (((funcPre ++ ['$']) ++ ['$']) ++ body) ++ ['$'], []⟩ =
        ⟨.normal, ((((funcPre ++ ['$']) ++ ['$']) ++ body) ++ ['$']) ++ ['$'], []⟩ := by
      rw [List.foldl_cons, step_keep (by simp [emits])]
      simp [stepMode]
    rw [h6]
    have h7 : funcPost.foldl step
        ⟨.normal, ((((funcPre ++ ['$']) ++ ['$']) ++ body) ++ ['$']) ++ ['$'], []⟩ =
        ⟨.normal, (((((funcPre ++ ['$']) ++ ['$']) ++ body) ++ ['$']) ++ ['$'])
          ++ funcPost, []⟩ :=
      scan_inert funcPost _ [] (by decide)
    rw [h7]
    rw [show ([';'] : Str).foldl step
        ⟨.normal, (((((funcPre ++ ['$']) ++ ['$']) ++ body) ++ ['$']) ++ ['$'])
          ++ funcPost, []⟩ =
        ⟨.normal, [],
          [((((((funcPre ++ ['$']) ++ ['$']) ++ body) ++ ['$']) ++ ['$'])
            ++ funcPost) ++ [';']]⟩ from by
      rw [List.foldl_cons, step_emit (by decide)]
      simp]
    simp
  show (⟨(scan _).stmts, (scan _).buf, (scan _).mode.isUnterm⟩ : SplitResult) = _
  rw [hscan]
  rfl

/-- C4 witness: a concrete function body containing semicolons splits as
one statement. -/
theorem dollar_quote_single_statement_witness :
    '$' ∉ (" INSERT INTO log VALUES (1); RETURN NULL; ").toList ∧
    splitSql (funcPre ++ (['$'] ++ (['$'] ++
        ((" INSERT INTO log VALUES (1); RETURN NULL; ").toList ++
        (['$'] ++ (['$'] ++ (funcPost ++ [';']))))))) =
      ⟨[funcPre ++ (['$'] ++ (['$'] ++
        ((" INSERT INTO log VALUES (1); RETURN NULL; ").toList ++
        (['$'] ++ (['$'] ++ (funcPost ++ [';']))))))], [], false⟩ :=
  ⟨by decide, dollar_quote_single_statement
    ((" INSERT INTO log VALUES (1); RETURN NULL; ").toList) (by decide)⟩

/-- C5: a CREATE TABLE statement with no existing guard — no
`IF NOT EXISTS` in its recognized-keyword region, whatever guard-like
text occurs elsewhere in the statement — is rewritten to exactly the
original text with `IF NOT EXISTS` inserted immediately after the
`CREATE TABLE` keywords; nothing else in the text changes. -/
theorem create_table_guard_correct (s c1 r1 c2 r2 : Str)
    (h1 : eatKw kwCREATE s = some (c1, r1))
    (h2 : eatKw kwTABLE r1 = some (c2, r2))
    (hg : hasGuard .createTable r2 = false) :
    (processStatement s).statement_type = .createTable ∧
    s = (c1 ++ c2) ++ r2 ∧
    (processStatement s).transformed_text = (c1 ++ c2) ++ (insINE ++ r2) := by
  have hcls : classify s = ⟨.createTable, c1 ++ c2, r2, nameAt r2⟩ := by
    simp [classify, h1, classifyCreate, tryTable, h2]
  have hG : hasGuard (classify s).kind (classify s).rest = false := by
    rw [hcls]
    exact hg
  have hW : canWrap (classify s).kind = true := by
    rw [hcls]
    rfl
  refine ⟨?_, ?_, ?_⟩
  · show (processStatement s).statement_type = _
    unfold processStatement
    dsimp only
    rw [if_neg (by simp [hG]), if_pos hW]
    rw [hcls]
  · rw [(eatKw_split h1).1, (eatKw_split h2).1]
    simp
  · have hr := pT_of_rewrite hG hW
    rw [hcls] at hr
    exact hr

set_option maxRecDepth 8192 in
/-- C5 witness: a concrete CREATE TABLE statement — one that even
carries the guard text inside a comment, outside the keyword region —
gains exactly the `IF NOT EXISTS` guard after `CREATE TABLE`. -/
theorem create_table_guard_correct_witness :
    (processStatement
      (("CREATE TABLE foo (x int /* IF NOT EXISTS */);").toList)).transformed_text
      = ("CREATE TABLE IF NOT EXISTS foo (x int /* IF NOT EXISTS */);").toList := by
  have h := create_table_guard_correct
    (("CREATE TABLE foo (x int /* IF NOT EXISTS */);").toList)
    (("CREATE").toList)
    ((" TABLE foo (x int /* IF NOT EXISTS */);").toList)
    ((" TABLE").toList)
    ((" foo (x int /* IF NOT EXISTS */);").toList)
    (by decide) (by decide) (by decide)
  rw [h.2.2]
  decide

def concIdx : Str := ("CREATE INDEX CONCURRENTLY idx ON t(c);").toList

/-- C6: any occurrence of `CREATE INDEX CONCURRENTLY idx ON t(c);` among a
script's statements passes through transformation byte for byte, with
`can_be_wrapped = false`, no error, and a cannot-wrap warning that is
collected into the script-level warnings. -/
theorem conc_index_passthrough (S : Str) (i : Nat)
    (h : (splitSql S).statements.get? i = some concIdx) :
    (transform S).statements.get? i = some
      ⟨concIdx, .createIndexConc, ("idx").toList, false, false, none,
        concIdx, some cannotWrapMsg⟩ ∧
    cannotWrapMsg ∈ (transform S).warnings := by
  have hps : processStatement concIdx =
      ⟨concIdx, .createIndexConc, ("idx").toList, false, false, none,
        concIdx, some cannotWrapMsg⟩ := by decide
  have hget : (transform S).statements.get? i = some (processStatement concIdx) := by
    show ((splitSql S).statements.map processStatement).get? i = _
    rw [List.get?_map, h]
    rfl
  constructor
  · rw [hget, hps]
  · have hmem : processStatement concIdx ∈ (transform S).statements :=
      List.get?_mem hget
    exact List.mem_filterMap.mpr ⟨processStatement concIdx, hmem, by rw [hps]⟩

set_option maxRecDepth 8192 in
/-- C6 witness: the one-statement script consisting of that index
statement. -/
theorem conc_index_passthrough_witness :
    (transform concIdx).statements.get? 0 = some
      ⟨concIdx, .createIndexConc, ("idx").toList, false, false, none,
        concIdx, some cannotWrapMsg⟩ ∧
    cannotWrapMsg ∈ (transform concIdx).warnings :=
  conc_index_passthrough concIdx 0 (by decide)

/-- C7: every statement whose leading tokens match none of the
recognised prefixes — exactly the statements the Classifier tags
`unknown`, whether they start with an unrecognised verb or with a
`CREATE`/`ALTER`/`DROP` that continues unrecognisably — has an empty
object name, passes through unchanged, and carries neither an error nor
a warning. -/
theorem unknown_passthrough (s : Str) (h : (classify s).kind = .unknown) :
    classify s = ⟨.unknown, [], s, []⟩ ∧
    processStatement s = ⟨s, .unknown, [], false, false, none, s, none⟩ := by
  have hcls : classify s = ⟨.unknown, [], s, []⟩ := by
    cases hC : eatKw kwCREATE s with
    | some pr1 =>
      obtain ⟨c1, r1⟩ := pr1
      cases hT : eatKw kwTABLE r1 with
      | some pr2 =>
        obtain ⟨c2, r2⟩ := pr2
        have hk : classify s = ⟨.createTable, c1 ++ c2, r2, nameAt r2⟩ := by
          simp [classify, hC, classifyCreate, tryTable, hT]
        rw [hk] at h
        simp at h
      | none =>
        cases hU : eatKws [kwUNIQUE, kwINDEX] r1 with
        | some pr2 =>
          obtain ⟨c2, r2⟩ := pr2
          cases hCC : eatKw kwCONCURRENTLY r2 with
          | some pr3 =>
            obtain ⟨c3, r3⟩ := pr3
            have hk : classify s =
                ⟨.createIndexConc, c1 ++ c2 ++ c3, r3, nameAt r3⟩ := by
              simp [classify, hC, classifyCreate, tryTable, hT,
                tryUniqueIndex, hU, hCC]
            rw [hk] at h
            simp at h
          | none =>
            have hk : classify s =
                ⟨.createUniqueIndex, c1 ++ c2, r2, nameAt r2⟩ := by
              simp [classify, hC, classifyCreate, tryTable, hT,
                tryUniqueIndex, hU, hCC]
            rw [hk] at h
            simp at h
        | none =>
          cases hI : eatKw kwINDEX r1 with
          | some pr2 =>
            obtain ⟨c2, r2⟩ := pr2
            cases hCC : eatKw kwCONCURRENTLY r2 with
            | some pr3 =>
              obtain ⟨c3, r3⟩ := pr3
              have hk : classify s =
                  ⟨.createIndexConc, c1 ++ c2 ++ c3, r3, nameAt r3⟩ := by
                simp [classify, hC, classifyCreate, tryTable, hT,
                  tryUniqueIndex, hU, tryIndex, hI, hCC]
              rw [hk] at h
              simp at h
            | none =>
              have hk : classify s =
                  ⟨.createIndex, c1 ++ c2, r2, nameAt r2⟩ := by
                simp [classify, hC, classifyCreate, tryTable, hT,
                  tryUniqueIndex, hU, tryIndex, hI, hCC]
              rw [hk] at h
              simp at h
          | none =>
            cases hO : eatKws [kwOR, kwREPLACE] r1 with
            | some pr2 =>
              obtain ⟨c2, r2⟩ := pr2
              cases hF : eatKw kwFUNCTION r2 with
              | some pr3 =>
                obtain ⟨c3, r3⟩ := pr3
                have hk : classify s = ⟨.createFunction, c1, r1, nameAt r3⟩ := by
                  simp [classify, hC, classifyCreate, tryTable, hT,
                    tryUniqueIndex, hU, tryIndex, hI, tryOrReplace, hO, hF]
                rw [hk] at h
                simp at h
              | none =>
                cases hV : eatKw kwVIEW r2 with
                | some pr3 =>
                  obtain ⟨c3, r3⟩ := pr3
                  have hk : classify s = ⟨.createView, c1, r1, nameAt r3⟩ := by
                    simp [classify, hC, classifyCreate, tryTable, hT,
                      tryUniqueIndex, hU, tryIndex, hI, tryOrReplace, hO, hF, hV]
                  rw [hk] at h
                  simp at h
                | none =>
                  simp [classify, hC, classifyCreate, tryTable, hT,
                    tryUniqueIndex, hU, tryIndex, hI, tryOrReplace, hO, hF, hV]
            | none =>
              cases hTy : eatKw kwTYPE r1 with
              | some pr2 =>
                obtain ⟨c2, r2⟩ := pr2
                have hk : classify s =
                    ⟨.createType, c1 ++ c2, r2, nameAt r2⟩ := by
                  simp [classify, hC, classifyCreate, tryTable, hT,
                    tryUniqueIndex, hU, tryIndex, hI, tryOrReplace, hO,
                    tryType, hTy]
                rw [hk] at h
                simp at h
              | none =>
                cases hF : eatKw kwFUNCTION r1 with
                | some pr2 =>
                  obtain ⟨c2, r2⟩ := pr2
                  have hk : classify s =
                      ⟨.createFunction, c1, r1, nameAt r2⟩ := by
                    simp [classify, hC, classifyCreate, tryTable, hT,
                      tryUniqueIndex, hU, tryIndex, hI, tryOrReplace, hO,
                      tryType, hTy, tryFunction, hF]
                  rw [hk] at h
                  simp at h
                | none =>
                  cases hV : eatKw kwVIEW r1 with
                  | some pr2 =>
                    obtain ⟨c2, r2⟩ := pr2
                    have hk : classify s =
                        ⟨.createView, c1, r1, nameAt r2⟩ := by
                      simp [classify, hC, classifyCreate, tryTable, hT,
                        tryUniqueIndex, hU, tryIndex, hI, tryOrReplace, hO,
                        tryType, hTy, tryFunction, hF, tryView, hV]
                    rw [hk] at h
                    simp at h
                  | none =>
                    cases hTr : eatKw kwTRIGGER r1 with
                    | some pr2 =>
                      obtain ⟨c2, r2⟩ := pr2
                      have hk : classify s =
                          ⟨.createTrigger, c1 ++ c2, r2, nameAt r2⟩ := by
                        simp [classify, hC, classifyCreate, tryTable, hT,
                          tryUniqueIndex, hU, tryIndex, hI, tryOrReplace, hO,
                          tryType, hTy, tryFunction, hF, tryView, hV,
                          tryTrigger, hTr]
                      rw [hk] at h
                      simp at h
                    | none =>
                      cases hP : eatKw kwPOLICY r1 with
                      | some pr2 =>
                        obtain ⟨c2, r2⟩ := pr2
                        have hk : classify s =
                            ⟨.createPolicy, c1 ++ c2, r2, nameAt r2⟩ := by
                          simp [classify, hC, classifyCreate, tryTable, hT,
                            tryUniqueIndex, hU, tryIndex, hI, tryOrReplace, hO,
                            tryType, hTy, tryFunction, hF, tryView, hV,
                            tryTrigger, hTr, tryPolicy, hP]
                        rw [hk] at h
                        simp at h
                      | none =>
                        cases hE : eatKw kwEXTENSION r1 with
                        | some pr2 =>
                          obtain ⟨c2, r2⟩ := pr2
                          have hk : classify s =
                              ⟨.createExtension, c1 ++ c2, r2, nameAt r2⟩ := by
                            simp [classify, hC, classifyCreate, tryTable, hT,
                              tryUniqueIndex, hU, tryIndex, hI, tryOrReplace,
                              hO, tryType, hTy, tryFunction, hF, tryView, hV,
                              tryTrigger, hTr, tryPolicy, hP, tryExtension, hE]
                          rw [hk] at h
                          simp at h
                        | none =>
                          cases hS : eatKw kwSCHEMA r1 with
                          | some pr2 =>
                            obtain ⟨c2, r2⟩ := pr2
                            have hk : classify s =
                                ⟨.createSchema, c1 ++ c2, r2, nameAt r2⟩ := by
                              simp [classify, hC, classifyCreate, tryTable, hT,
                                tryUniqueIndex, hU, tryIndex, hI, tryOrReplace,
                                hO, tryType, hTy, tryFunction, hF, tryView, hV,
                                tryTrigger, hTr, tryPolicy, hP, tryExtension,
                                hE, trySchema, hS]
                            rw [hk] at h
                            simp at h
                          | none =>
                            simp [classify, hC, classifyCreate, tryTable, hT,
                              tryUniqueIndex, hU, tryIndex, hI, tryOrReplace,
                              hO, tryType, hTy, tryFunction, hF, tryView, hV,
                              tryTrigger, hTr, tryPolicy, hP, tryExtension, hE,
                              trySchema, hS]
    | none =>
      cases hA : eatKw kwALTER s with
      | some pr1 =>
        obtain ⟨c1, r1⟩ := pr1
        cases hT : eatKw kwTABLE r1 with
        | some pr2 =>
          obtain ⟨c2, r2⟩ := pr2
          by_cases hAC : hasSubstr markADDCOL (upStr s) = true
          · have hk : classify s =
                ⟨.alterTableAddColumn, c1 ++ c2, r2, nameAt r2⟩ := by
              simp [classify, hC, hA, classifyAlter, hT, hAC]
            rw [hk] at h
            simp at h
          · simp [classify, hC, hA, classifyAlter, hT, hAC]
        | none =>
          cases hTy : eatKw kwTYPE r1 with
          | some pr2 =>
            obtain ⟨c2, r2⟩ := pr2
            by_cases hAV : hasSubstr markADDVAL (upStr s) = true
            · have hk : classify s =
                  ⟨.alterTypeAddValue, c1 ++ c2, r2, nameAt r2⟩ := by
                simp [classify, hC, hA, classifyAlter, hT, hTy, hAV]
              rw [hk] at h
              simp at h
            · simp [classify, hC, hA, classifyAlter, hT, hTy, hAV]
          | none =>
            simp [classify, hC, hA, classifyAlter, hT, hTy]
      | none =>
        cases hD : eatKw kwDROP s with
        | some pr1 =>
          obtain ⟨c1, r1⟩ := pr1
          by_cases hN : nameAt r1 = []
          · simp [classify, hC, hA, hD, hN]
          · have hk : classify s = ⟨.dropStmt, c1 ++ (eatToken r1).1,
                (eatToken r1).2, nameAt (eatToken r1).2⟩ := by
              simp [classify, hC, hA, hD, hN]
            rw [hk] at h
            simp at h
        | none =>
          simp [classify, hC, hA, hD]
  refine ⟨hcls, ?_⟩
  unfold processStatement
  dsimp only
  rw [hcls]
  rfl

/-- C7 witness: `VACUUM ANALYZE t;` matches no recognised prefix, is
classified unknown and passes through. -/
theorem unknown_passthrough_witness :
    classify (("VACUUM ANALYZE t;").toList) =
      ⟨.unknown, [], ("VACUUM ANALYZE t;").toList, []⟩ ∧
    processStatement (("VACUUM ANALYZE t;").toList) =
      ⟨("VACUUM ANALYZE t;").toList, .unknown, [], false, false, none,
        ("VACUUM ANALYZE t;").toList, none⟩ :=
  unknown_passthrough (("VACUUM ANALYZE t;").toList) (by decide)


/-! ### File-system helpers, embedded from `pg_idempotent/utils/file_utils.py` -/

/-- Split a raw path string on `/` separators. -/
def splitSlash : Str → List Str
  | [] => [[]]
  | c :: rest =>
    if c = '/' then [] :: splitSlash rest
    else
      match splitSlash rest with
      | [] => [[c]]
      | g :: gs => (c :: g) :: gs

/-- Path components in the sense of `pathlib.PurePosixPath`: empty and
dot segments are dropped, `..` is kept. -/
def pathComps (s : Str) : List Str :=
  (splitSlash s).filter (fun c => !(c == [] || c == [('.' : Char)]))

def isAbsPath (s : Str) : Bool :=
  match s with
  | [] => false
  | c :: _ => c == '/'

/-- The `parts` of a path: the root marker (for an absolute path)
followed by the components. -/
def pathParts (p : Str) : List Str :=
  (if isAbsPath p then [[('/' : Char)]] else []) ++ pathComps p

/-- The `name` of a path: the final component (empty for an empty or
root path). -/
def pathName (p : Str) : Str := (pathComps p).getLastD []

def dotSql : Str := (".sql").toList

/-- Suffix test. -/
def endsIn (suf s : Str) : Bool := suf.reverse.isPrefixOf s.reverse

theorem endsIn_iff (suf s : Str) :
    endsIn suf s = true ↔ ∃ pre, s = pre ++ suf := by
  unfold endsIn
  rw [List.isPrefixOf_iff_prefix]
  constructor
  · rintro ⟨t, ht⟩
    refine ⟨t.reverse, ?_⟩
    have h2 := congrArg List.reverse ht
    have h3 : t.reverse ++ suf = s := by simpa using h2
    exact h3.symm
  · rintro ⟨pre, hpre⟩
    exact ⟨pre.reverse, by rw [hpre]; simp⟩

/-- Tail of the timestamp pattern after the fourteen digits: an
underscore, then any non-newline characters, then `.sql`, with `$` also
accepting one trailing newline. -/
def tsTail : Str → Bool
  | '_' :: m =>
      (endsIn dotSql m && decide ('\n' ∉ m.take (m.length - 4))) ||
      (endsIn (dotSql ++ ['\n']) m && decide ('\n' ∉ m.take (m.length - 5)))
  | _ => false

/-- The codepoint ranges of Unicode general category Nd (decimal digit),
per the Unicode 14.0 data used by the interpreter: Python `re`'s `\d`
matches exactly these characters in a `str` pattern. -/
def ndRanges : List (Nat × Nat) :=
  [(48, 57), (1632, 1641), (1776, 1785), (1984, 1993),
   (2406, 2415), (2534, 2543), (2662, 2671), (2790, 2799),
   (2918, 2927), (3046, 3055), (3174, 3183), (3302, 3311),
   (3430, 3439), (3558, 3567), (3664, 3673), (3792, 3801),
   (3872, 3881), (4160, 4169), (4240, 4249), (6112, 6121),
   (6160, 6169), (6470, 6479), (6608, 6617), (6784, 6793),
   (6800, 6809), (6992, 7001), (7088, 7097), (7232, 7241),
   (7248, 7257), (42528, 42537), (43216, 43225), (43264, 43273),
   (43472, 43481), (43504, 43513), (43600, 43609), (44016, 44025),
   (65296, 65305), (66720, 66729), (68912, 68921), (69734, 69743),
   (69872, 69881), (69942, 69951), (70096, 70105), (70384, 70393),
   (70736, 70745), (70864, 70873), (71248, 71257), (71360, 71369),
   (71472, 71481), (71904, 71913), (72016, 72025), (72784, 72793),
   (73040, 73049), (73120, 73129), (92768, 92777), (92864, 92873),
   (93008, 93017), (120782, 120831), (123200, 123209), (123632, 123641),
   (125264, 125273), (130032, 130041)]

/-- Embedded from the pattern's `\d`: any Unicode decimal digit
(category Nd), not only the ASCII digits. -/
def isDigitNd (c : Char) : Bool :=
  ndRanges.any (fun r => decide (r.1 ≤ c.toNat) && decide (c.toNat ≤ r.2))

/-- Embedded from the source pattern `^\d{14}_.*\.sql$` under Python
`re.match` semantics: fourteen Unicode decimal digits, an underscore,
any characters other than a newline (`.` does not match a newline),
then `.sql`, where `$` also matches just before one trailing newline at
the end. -/
def timestampMatch (n : Str) : Bool :=
  (n.take 14).length == 14 && (n.take 14).all isDigitNd && tsTail (n.drop 14)

def supComp : Str := ("supabase").toList

def migComp : Str := ("migrations").toList

/-- Embedded from `FileOperations.is_supabase_migration`: true when both
`supabase` and `migrations` occur among the path's parts, or the file
name matches the timestamp pattern.  The function is total, so it never
raises. -/
def is_supabase_migration (p : Str) : Bool :=
  ((pathParts p).contains supComp && (pathParts p).contains migComp) ||
  timestampMatch (pathName p)

theorem tsTail_cons_ne {c : Char} {m : Str} (h : ¬c = '_') :
    tsTail (c :: m) = false := by
  unfold tsTail
  split
  · rename_i heq
    injection heq with h1 _
    exact absurd h1 h
  · rfl

theorem timestampMatch_iff (n : Str) :
    timestampMatch n = true ↔
      ∃ d m t, n = d ++ '_' :: (m ++ (dotSql ++ t)) ∧ d.length = 14 ∧
        (∀ c ∈ d, isDigitNd c = true) ∧ '\n' ∉ m ∧ (t = [] ∨ t = ['\n']) := by
  unfold timestampMatch
  constructor
  · intro h
    simp only [Bool.and_eq_true, beq_iff_eq] at h
    obtain ⟨⟨hlen, hdig⟩, hrest⟩ := h
    cases hd : n.drop 14 with
    | nil => rw [hd] at hrest; simp [tsTail] at hrest
    | cons c0 m0 =>
        rw [hd] at hrest
        by_cases hc0 : c0 = '_'
        case neg => rw [tsTail_cons_ne hc0] at hrest; exact absurd hrest (by simp)
        subst hc0
        rw [show tsTail ('_' :: m0) =
          ((endsIn dotSql m0 && decide ('\n' ∉ m0.take (m0.length - 4))) ||
           (endsIn (dotSql ++ ['\n']) m0 &&
             decide ('\n' ∉ m0.take (m0.length - 5)))) from rfl] at hrest
        simp only [Bool.or_eq_true, Bool.and_eq_true] at hrest
        rcases hrest with ⟨he, hnl⟩ | ⟨he, hnl⟩
        · rcases (endsIn_iff _ _).mp he with ⟨pre, hpre⟩
          refine ⟨n.take 14, pre, [], ?_, hlen, ?_, ?_, Or.inl rfl⟩
          · conv_lhs => rw [← List.take_append_drop 14 n, hd, hpre]
            simp
          · intro c hc
            exact (List.all_eq_true.mp hdig) c hc
          · have htake : m0.take (m0.length - 4) = pre := by
              rw [hpre]
              rw [show (pre ++ dotSql).length - 4 = pre.length by simp [dotSql]]
              exact List.take_left ..
            rw [htake] at hnl
            exact of_decide_eq_true hnl
        · rcases (endsIn_iff _ _).mp he with ⟨pre, hpre⟩
          refine ⟨n.take 14, pre, ['\n'], ?_, hlen, ?_, ?_, Or.inr rfl⟩
          · conv_lhs => rw [← List.take_append_drop 14 n, hd, hpre]
          · intro c hc
            exact (List.all_eq_true.mp hdig) c hc
          · have htake : m0.take (m0.length - 5) = pre := by
              rw [hpre]
              rw [show (pre ++ (dotSql ++ ['\n'])).length - 5 = pre.length by
                simp [dotSql]]
              exact List.take_left ..
            rw [htake] at hnl
            exact of_decide_eq_true hnl
  · rintro ⟨d, m, t, hn, hd14, hdig, hnl, ht⟩
    have htake : n.take 14 = d := by
      rw [hn]
      exact List.take_left' hd14
    have hdrop : n.drop 14 = '_' :: (m ++ (dotSql ++ t)) := by
      rw [hn]
      exact List.drop_left' hd14
    simp only [Bool.and_eq_true, beq_iff_eq]
    refine ⟨⟨by rw [htake, hd14], ?_⟩, ?_⟩
    · rw [htake]
      exact List.all_eq_true.mpr hdig
    · rw [hdrop]
      rw [show tsTail ('_' :: (m ++ (dotSql ++ t))) =
        ((endsIn dotSql (m ++ (dotSql ++ t)) &&
          decide ('\n' ∉ (m ++ (dotSql ++ t)).take
            ((m ++ (dotSql ++ t)).length - 4))) ||
         (endsIn (dotSql ++ ['\n']) (m ++ (dotSql ++ t)) &&
          decide ('\n' ∉ (m ++ (dotSql ++ t)).take
            ((m ++ (dotSql ++ t)).length - 5)))) from rfl]
      rcases ht with ht | ht
      · subst ht
        simp only [Bool.or_eq_true, Bool.and_eq_true]
        left
        constructor
        · exact (endsIn_iff _ _).mpr ⟨m, by simp⟩
        · have htk : (m ++ (dotSql ++ [])).take
              ((m ++ (dotSql ++ [])).length - 4) = m := by
            have h4 : (m ++ (dotSql ++ ([] : List Char))).length - 4 = m.length := by
              simp [dotSql]
            rw [h4]
            exact List.take_left' rfl
          rw [htk]
          exact decide_eq_true hnl
      · subst ht
        simp only [Bool.or_eq_true, Bool.and_eq_true]
        right
        constructor
        · exact (endsIn_iff _ _).mpr ⟨m, by simp⟩
        · have htk : (m ++ (dotSql ++ ['\n'])).take
              ((m ++ (dotSql ++ ['\n'])).length - 5) = m := by
            have h5 : (m ++ (dotSql ++ ['\n'])).length - 5 = m.length := by
              simp [dotSql]
            rw [h5]
            exact List.take_left' rfl
          rw [htk]
          exact decide_eq_true hnl

/-- C8: `is_supabase_migration` holds exactly when both `supabase` and
`migrations` occur among the path's parts, or the file name consists of
fourteen digits, an underscore, non-newline text and the `.sql` suffix
(with the pattern's `$` also accepting one trailing newline); being a
total function, it never raises. -/
theorem is_supabase_migration_iff (p : Str) :
    is_supabase_migration p = true ↔
      ((supComp ∈ pathParts p ∧ migComp ∈ pathParts p) ∨
       ∃ d m t, pathName p = d ++ '_' :: (m ++ (dotSql ++ t)) ∧
         d.length = 14 ∧ (∀ c ∈ d, isDigitNd c = true) ∧ '\n' ∉ m ∧
         (t = [] ∨ t = ['\n'])) := by
  unfold is_supabase_migration
  rw [Bool.or_eq_true, Bool.and_eq_true]
  constructor
  · rintro (⟨h1, h2⟩ | h)
    · left
      exact ⟨by simpa using h1, by simpa using h2⟩
    · right
      exact (timestampMatch_iff _).mp h
  · rintro (⟨h1, h2⟩ | h)
    · left
      exact ⟨by simpa using h1, by simpa using h2⟩
    · right
      exact (timestampMatch_iff _).mpr h

/-! ### Path resolution, embedded from `FileOperations.get_relative_path` -/

def dotdot : Str := ("..").toList

/-- One step of lexical `..` normalisation as performed by
`Path.resolve` in the absence of symlinks: `..` removes the last
component (a no-op at the root), anything else is appended. -/
def normStepP (acc : List Str) (c : Str) : List Str :=
  if c = dotdot then acc.dropLast else acc ++ [c]

def normParts (cs : List Str) : List Str := cs.foldl normStepP []

/-- Embedded from `Path.resolve()`: a relative path is interpreted
against the current working directory `cwd` (given as its normalised
component list), then `..` components are eliminated. -/
def resolveParts (cwd : List Str) (p : Str) : List Str :=
  if isAbsPath p then normParts (pathComps p)
  else normParts (cwd ++ pathComps p)

/-- Embedded from `PurePath.relative_to`: succeeds exactly when the
base's parts are a prefix of the path's parts, returning the remainder;
otherwise it raises `ValueError`, modelled as `Except.error`. -/
def relativeTo (f b : List Str) : Except Unit (List Str) :=
  if b.isPrefixOf f then .ok (f.drop b.length) else .error ()

/-- Embedded from `FileOperations.get_relative_path`: resolve both
paths, try `relative_to`, and on `ValueError` return the resolved file
path. -/
def get_relative_path (cwd : List Str) (file_path base_path : Str) :
    List Str :=
  let f := resolveParts cwd file_path
  let b := resolveParts cwd base_path
  match relativeTo f b with
  | .ok r => r
  | .error _ => f

/-- C9: `get_relative_path` is total — the `ValueError` raised by
`relative_to` is always caught.  When the resolved base's parts are a
prefix of the resolved file's parts the result is the relative
remainder, and prepending the base's parts reconstructs the file's
parts; otherwise the result is the resolved absolute file path itself. -/
theorem get_relative_path_spec (cwd : List Str) (fp bp : Str) :
    ((resolveParts cwd bp).isPrefixOf (resolveParts cwd fp) = true →
      get_relative_path cwd fp bp =
        (resolveParts cwd fp).drop (resolveParts cwd bp).length ∧
      resolveParts cwd bp ++ get_relative_path cwd fp bp =
        resolveParts cwd fp) ∧
    ((resolveParts cwd bp).isPrefixOf (resolveParts cwd fp) = false →
      get_relative_path cwd fp bp = resolveParts cwd fp) := by
  constructor
  · intro h
    have hpre := List.isPrefixOf_iff_prefix.mp h
    obtain ⟨t, ht⟩ := hpre
    have hval : get_relative_path cwd fp bp =
        (resolveParts cwd fp).drop (resolveParts cwd bp).length := by
      unfold get_relative_path relativeTo
      simp [h]
    refine ⟨hval, ?_⟩
    rw [hval, ← ht]
    rw [List.drop_left]
  · intro h
    unfold get_relative_path relativeTo
    simp [h]

/-! ### SQL file discovery, embedded from `FileOperations.find_sql_files` -/

/-- Model of the file system visible to `find_sql_files`: the component
lists of the existing directories and of the existing regular files. -/
structure FileSys where
  dirs : List (List Str)
  files : List (List Str)

/-- Embedded from `Path.exists`: true for an existing directory or
file. -/
def pexists (fs : FileSys) (p : List Str) : Bool :=
  fs.dirs.contains p || fs.files.contains p

/-- Match the `fnmatch` pattern component `*.sql`, where `*` matches
any (possibly empty) sequence of characters. -/
def sqlName (n : Str) : Bool := endsIn dotSql n

/-- Embedded from `directory.glob("*.sql")`: the entries — files and
directories alike, since `glob` does not filter by entry type — directly
inside the directory whose name matches `*.sql`. -/
def globNonRec (fs : FileSys) (d : List Str) : List (List Str) :=
  (fs.files ++ fs.dirs).filter
    (fun f => f.dropLast == d && sqlName (f.getLastD []))

/-- Embedded from `directory.glob("**/*.sql")`: the entries — files and
directories alike — inside the directory or any of its subdirectories
whose name matches `*.sql`. -/
def globRec (fs : FileSys) (d : List Str) : List (List Str) :=
  (fs.files ++ fs.dirs).filter
    (fun f => d.isPrefixOf f.dropLast && sqlName (f.getLastD []))

/-- Embedded from `sorted(...)` over `Path` objects: `PurePath`
comparison is lexicographic on the tuple of path parts (each part
compared as a string; no case folding on POSIX), so the sort key is the
component list itself under the lexicographic list order. -/
def sortPaths (l : List (List Str)) : List (List Str) :=
  l.insertionSort (fun p q => p ≤ q)

/-- Embedded from `FileOperations.find_sql_files`: raise
`FileNotFoundError` when the directory does not exist, otherwise return
the sorted glob matches, recursively or not. -/
def find_sql_files (fs : FileSys) (directory : List Str)
    (recursive : Bool) : Except Str (List (List Str)) :=
  if pexists fs directory then
    .ok (sortPaths
      (if recursive then globRec fs directory else globNonRec fs directory))
  else
    .error (("Directory not found").toList)

/-- C10: `find_sql_files` raises `FileNotFoundError` exactly when the
directory does not exist; otherwise it returns a list that is a
permutation of the glob matches, is sorted in the lexicographic order of
path parts used by `sorted` on `Path` objects, and contains precisely
the existing entries whose name matches `*.sql` and which lie directly
in the directory (non-recursive mode) or anywhere below it (recursive
mode). -/
theorem find_sql_files_spec (fs : FileSys) (d : List Str) (rec : Bool) :
    (pexists fs d = false →
      find_sql_files fs d rec = .error (("Directory not found").toList)) ∧
    (pexists fs d = true →
      ∃ l, find_sql_files fs d rec = .ok l ∧
        l.Perm (if rec then globRec fs d else globNonRec fs d) ∧
        List.Sorted (fun p q : List Str => p ≤ q) l ∧
        (∀ f, f ∈ l ↔ (f ∈ fs.files ∨ f ∈ fs.dirs) ∧
          sqlName (f.getLastD []) = true ∧
          (if rec then d.isPrefixOf f.dropLast = true
           else f.dropLast = d))) := by
  constructor
  · intro h
    unfold find_sql_files
    rw [h]
    simp
  · intro h
    refine ⟨sortPaths (if rec then globRec fs d else globNonRec fs d),
      ?_, ?_, ?_, ?_⟩
    · unfold find_sql_files
      rw [h]
      simp
    · exact List.perm_insertionSort _ _
    · haveI : IsTotal (List Str) (fun p q => p ≤ q) :=
        ⟨fun a b => le_total _ _⟩
      haveI : IsTrans (List Str) (fun p q => p ≤ q) :=
        ⟨fun a b c h1 h2 => le_trans h1 h2⟩
      exact List.sorted_insertionSort _ _
    · intro f
      unfold sortPaths
      rw [(List.perm_insertionSort _ _).mem_iff]
      cases rec with
      | true =>
          simp only [if_true]
          simp [globRec, List.mem_filter]
          tauto
      | false =>
          simp only [Bool.false_eq_true, if_false]
          simp [globNonRec, List.mem_filter]
          tauto

def fsW : FileSys :=
  ⟨[pathComps (("/m").toList), pathComps (("/m/sub").toList),
    pathComps (("/m/zz.sql").toList)],
   [pathComps (("/m/b.sql").toList), pathComps (("/m/a.sql").toList),
    pathComps (("/m/sub/c.sql").toList), pathComps (("/m/d.txt").toList)]⟩

/-- Witness for C9 at a concrete file and base. -/
theorem get_relative_path_spec_witness :
    get_relative_path [("home").toList] ("/a/b/c.sql").toList
      ("/a").toList = [("b").toList, ("c.sql").toList] ∧
    resolveParts [("home").toList] ("/a").toList ++
      get_relative_path [("home").toList] ("/a/b/c.sql").toList
        ("/a").toList =
      resolveParts [("home").toList] ("/a/b/c.sql").toList := by
  have h := (get_relative_path_spec [("home").toList]
    ("/a/b/c.sql").toList ("/a").toList).1 (by decide)
  exact ⟨h.1.trans (by decide), h.2⟩

/-- Witness for C10: the missing-directory branch and the
non-recursive success branch at a concrete file system that also holds a
directory whose name matches the pattern. -/
theorem find_sql_files_spec_witness :
    find_sql_files fsW [("nope").toList] true =
      .error (("Directory not found").toList) ∧
    ∃ l, find_sql_files fsW (pathComps (("/m").toList)) false = .ok l ∧
      l.Perm (globNonRec fsW (pathComps (("/m").toList))) ∧
      List.Sorted (fun p q : List Str => p ≤ q) l ∧
      (∀ f, f ∈ l ↔ (f ∈ fsW.files ∨ f ∈ fsW.dirs) ∧
        sqlName (f.getLastD []) = true ∧
        f.dropLast = pathComps (("/m").toList)) := by
  constructor
  · exact (find_sql_files_spec fsW [("nope").toList] true).1 (by decide)
  · have h := (find_sql_files_spec fsW (pathComps (("/m").toList))
      false).2 (by decide)
    simpa using h
